import Mathlib

/-!
Verification of the mtprotopy MTProto proxy (src/Docker/mtprotopy/mtprotopy.py)
against its natural-language specification.

Byte strings are modelled as `List Nat` with each element `< 256`.
External library primitives (hashlib, hmac, AES) are taken as function
parameters; everything written in the repository itself is embedded directly.
-/

namespace Mtprotopy

/-- Python `int.from_bytes(bs, "little")`. -/
def leVal : List Nat → Nat
  | [] => 0
  | b :: rest => b + 256 * leVal rest

/-- Python `int.to_bytes(n, w, "little")` (w bytes, little endian). -/
def leBytes (n : Nat) : Nat → List Nat
  | 0 => []
  | w + 1 => n % 256 :: leBytes (n / 256) w

/-- Python `int.from_bytes(bs, "big")`. -/
def beVal (l : List Nat) : Nat :=
  l.foldl (fun acc b => 256 * acc + b) 0

/-- Python `int.from_bytes(bs, "little", signed=True)` for a `w`-byte string. -/
def leSignedVal (w : Nat) (l : List Nat) : Int :=
  if leVal l < 2 ^ (8 * w - 1) then (leVal l : Int) else (leVal l : Int) - 2 ^ (8 * w)

/-- Python `int.to_bytes(i, w, "little", signed=True)` for `i` in range. -/
def leSignedBytes (w : Nat) (i : Int) : List Nat :=
  leBytes (i % ((2 : Int) ^ (8 * w))).toNat w

/-- CRC-32 (IEEE, reflected) generator polynomial as used by `binascii.crc32`. -/
def crcPoly : Nat := 0xEDB88320

/-- One bit step of the reflected CRC-32. -/
def crcRound (c : Nat) : Nat :=
  if c % 2 = 1 then (c / 2) ^^^ crcPoly else c / 2

/-- Byte table entry of the reflected CRC-32. -/
def crcTable (b : Nat) : Nat := crcRound^[8] b

/-- Process one byte of input into the CRC state. -/
def crc32Update (c b : Nat) : Nat :=
  (c / 256) ^^^ crcTable ((c ^^^ b) % 256)

/-- Fold the CRC state over a byte string. -/
def crc32Aux : Nat → List Nat → Nat
  | c, [] => c
  | c, b :: rest => crc32Aux (crc32Update c b) rest

/-- Python `binascii.crc32(data)`. -/
def crc32 (data : List Nat) : Nat :=
  crc32Aux 0xFFFFFFFF data ^^^ 0xFFFFFFFF

/-- Feeding a zero byte into a pure-error CRC state (used to track how a
single corrupted byte propagates through the rest of the message). -/
def crcM0 (e : Nat) : Nat := (e / 256) ^^^ crcTable (e % 256)

/-! ## MTProto framings (mtprotopy.py lines 629-802) -/

/-- `PADDING_FILLER = b"\x04\x00\x00\x00"` (line 92). -/
def mtPaddingFiller : List Nat := [4, 0, 0, 0]

/-- `MTProtoFrameStreamWriter.write` (lines 667-687): FULL framing.
Emits 4-byte little-endian inclusive length, 4-byte signed little-endian
sequence number, the payload, a little-endian CRC-32 of everything before
it, and right-pads the result with the filler word to a 16-byte multiple. -/
def mtFrameWrite (msg : List Nat) (seqNo : Int) : List Nat :=
  let lenB := leBytes (msg.length + 4 + 4 + 4) 4
  let seqB := leSignedBytes 4 seqNo
  let msgWithoutChecksum := lenB ++ seqB ++ msg
  let checksum := leBytes (crc32 msgWithoutChecksum) 4
  let fullMsg := msgWithoutChecksum ++ checksum
  -- padding = PADDING_FILLER * ((-len(full_msg) % 16) // 4)
  let padWords := ((16 - fullMsg.length % 16) % 16) / 4
  fullMsg ++ (List.replicate padWords mtPaddingFiller).flatten

/-- The length-word loop of `MTProtoFrameStreamReader.read` (lines 637-642):
read a 4-byte little-endian word, skipping any word equal to 4 (the filler).
Returns the length value, its raw bytes, and the rest of the stream;
`none` models `readexactly` hitting end of stream. -/
def mtReadLen : List Nat → Option (Nat × List Nat × List Nat)
  | a :: b :: c :: d :: rest =>
      if leVal [a, b, c, d] = 4 then mtReadLen rest
      else some (leVal [a, b, c, d], [a, b, c, d], rest)
  | _ => none

/-- `MTProtoFrameStreamReader.read` (lines 636-664).  Result is
`some (payload, new expected sequence number, unread rest of stream)`;
`none` models the error returns (bad length, bad sequence number, bad
checksum — the code returns `b""` and closes) as well as truncation. -/
def mtFrameRead (stream : List Nat) (seqNo : Int) :
    Option (List Nat × Int × List Nat) :=
  match mtReadLen stream with
  | none => none
  | some (msgLen, lenB, rest) =>
    if ¬ (12 ≤ msgLen ∧ msgLen ≤ 2 ^ 24) ∨ msgLen % 4 ≠ 0 then none
    else if rest.length < msgLen - 4 then none
    else
      let seqB := rest.take 4
      let data := (rest.drop 4).take (msgLen - 12)
      let checksumB := (rest.drop (msgLen - 8)).take 4
      if leSignedVal 4 seqB ≠ seqNo then none
      else if crc32 (lenB ++ seqB ++ data) ≠ leVal checksumB then none
      else some (data, seqNo + 1, rest.drop (msgLen - 4))

/-- The header computation of `MTProtoIntermediateFrameStreamReader.read`
(lines 747-753) and of the SECURE variant (lines 773-779): a 4-byte
little-endian length; lengths strictly greater than `0x80000000` carry the
QUICKACK flag and are reduced by `0x80000000`. -/
def mtIntermediateHeader (lenBytes : List Nat) : Bool × Nat :=
  let msgLen := leVal lenBytes
  if msgLen > 0x80000000 then (true, msgLen - 0x80000000) else (false, msgLen)

/-- `MTProtoIntermediateFrameStreamReader.read` (lines 743-756).
`some (payload, quickack flag, rest)`; `none` models truncation. -/
def mtIntermediateRead (stream : List Nat) :
    Option (List Nat × Bool × List Nat) :=
  if stream.length < 4 then none
  else
    let (quick, msgLen) := mtIntermediateHeader (stream.take 4)
    let rest := stream.drop 4
    if rest.length < msgLen then none
    else some (rest.take msgLen, quick, rest.drop msgLen)

/-- `MTProtoSecureIntermediateFrameStreamReader.read` (lines 769-787):
as INTERMEDIATE, but the payload is truncated down to a 4-byte multiple. -/
def mtSecureIntermediateRead (stream : List Nat) :
    Option (List Nat × Bool × List Nat) :=
  if stream.length < 4 then none
  else
    let (quick, msgLen) := mtIntermediateHeader (stream.take 4)
    let rest := stream.drop 4
    if rest.length < msgLen then none
    else
      let data := rest.take msgLen
      let data := if msgLen % 4 ≠ 0 then data.take (msgLen - msgLen % 4) else data
      some (data, quick, rest.drop msgLen)

/-- `MTProtoCompactFrameStreamWriter.write` (lines 716-740, ABRIDGED).
Result is `(bytes handed to the upstream writer, returned value)`; a
misaligned or oversized payload writes nothing and returns 0. -/
def mtCompactWrite (data : List Nat) (simpleAck : Bool) : List Nat × Nat :=
  if data.length % 4 ≠ 0 then ([], 0)
  else if simpleAck then (data.reverse, data.length)
  else
    let lenDivFour := data.length / 4
    if lenDivFour < 0x7F then
      ([lenDivFour] ++ data, 1 + data.length)
    else if lenDivFour < 256 ^ 3 then
      ([0x7F] ++ leBytes lenDivFour 3 ++ data, 4 + data.length)
    else ([], 0)

/-- `CryptoWrappedStreamWriter.write` (lines 618-626), parametric in the
encryptor.  A payload misaligned to the block size writes nothing and
returns 0. -/
def cryptoWrite (encrypt : List Nat → List Nat) (blockSize : Nat)
    (data : List Nat) : List Nat × Nat :=
  if data.length % blockSize ≠ 0 then ([], 0)
  else
    let q := encrypt data
    (q, q.length)

/-! ## RPC envelope writer (mtprotopy.py lines 834-901) -/

/-- `PROTO_TAG_ABRIDGED = b"\xef\xef\xef\xef"` (line 87). -/
def protoTagAbridged : List Nat := [0xef, 0xef, 0xef, 0xef]

/-- `PROTO_TAG_INTERMEDIATE = b"\xee\xee\xee\xee"` (line 88). -/
def protoTagIntermediate : List Nat := [0xee, 0xee, 0xee, 0xee]

/-- `PROTO_TAG_SECURE = b"\xdd\xdd\xdd\xdd"` (line 89). -/
def protoTagSecure : List Nat := [0xdd, 0xdd, 0xdd, 0xdd]

/-- The flags computation of `ProxyReqStreamWriter.write` (lines 876-889). -/
def proxyReqFlags (protoTag : List Nat) (quickAck : Bool) (msg : List Nat) :
    Nat :=
  let flags := 0x8 ||| 0x1000 ||| 0x20000
  let flags :=
    if protoTag = protoTagAbridged then flags ||| 0x40000000
    else if protoTag = protoTagIntermediate then flags ||| 0x20000000
    else if protoTag = protoTagSecure then flags ||| (0x20000000 ||| 0x8000000)
    else flags
  let flags := if quickAck then flags ||| 0x80000000 else flags
  if msg.take 8 = List.replicate 8 0 ∧ 8 ≤ msg.length then flags ||| 0x2
  else flags

/-- `ProxyReqStreamWriter.write` (lines 857-901).  `remoteIpPort`,
`ourIpPort`, `outConnId` and `adTag` are the per-connection fields set up in
`__init__`; result is `(bytes handed upstream, returned value)`.  Misaligned
payloads write nothing and return 0. -/
def proxyReqWrite (protoTag remoteIpPort ourIpPort outConnId adTag : List Nat)
    (quickAck : Bool) (msg : List Nat) : List Nat × Nat :=
  if msg.length % 4 ≠ 0 then ([], 0)
  else
    let rpcProxyReq : List Nat := [0xee, 0xf1, 0xce, 0x36]
    let extraSize : List Nat := [0x18, 0x00, 0x00, 0x00]
    let proxyTag : List Nat := [0xae, 0x26, 0x1e, 0xdb]
    let fourBytesAligner : List Nat := [0x00, 0x00, 0x00]
    let flags := proxyReqFlags protoTag quickAck msg
    let fullMsg :=
      rpcProxyReq ++ leBytes flags 4 ++ outConnId ++
      remoteIpPort ++ ourIpPort ++ extraSize ++ proxyTag ++
      [adTag.length] ++ adTag ++ fourBytesAligner ++ msg
    (fullMsg, fullMsg.length)

/-! ## Middle-proxy key derivation (mtprotopy.py lines 1373-1408) -/

/-- `get_middleproxy_aes_key_and_iv` (lines 1373-1408), parametric in the
external `hashlib.md5` and `hashlib.sha1` digests.  Byte-string arguments
model the Python `bytes` values; the empty list models both `None` and
`b""` (the two falsy values the `if not clt_ip or not srv_ip` test and the
`if clt_ipv6 and srv_ipv6` test react to). -/
def getMiddleproxyAesKeyAndIv (md5 sha1 : List Nat → List Nat)
    (nonceSrv nonceClt cltTs srvIp cltPort purpose cltIp srvPort
     middleproxySecret cltIpv6 srvIpv6 : List Nat) : List Nat × List Nat :=
  let emptyIp : List Nat := [0, 0, 0, 0]
  let (cltIp, srvIp) :=
    if cltIp = [] ∨ srvIp = [] then (emptyIp, emptyIp) else (cltIp, srvIp)
  let s :=
    nonceSrv ++ nonceClt ++ cltTs ++ srvIp ++ cltPort ++ purpose ++ cltIp ++
    srvPort ++ middleproxySecret ++ nonceSrv ++
    (if cltIpv6 ≠ [] ∧ srvIpv6 ≠ [] then cltIpv6 ++ srvIpv6 else []) ++
    nonceClt
  ((md5 (s.drop 1)).take 12 ++ sha1 s, md5 (s.drop 2))

/-- The same derivation written from the words of the specification
(spec section 4.7 step 4): compose
s = serverNonce || clientNonce || cryptoTs || srvIp || cltPort || purpose ||
cltIp || srvPort || middleProxySecret || serverNonce, then when both IPv6
endpoints are present append cltIPv6 || srvIPv6, then append clientNonce;
key = MD5(s[1:])[0:12] || SHA1(s) and iv = MD5(s[2:]). -/
def specMiddleproxyKeyIv (md5 sha1 : List Nat → List Nat)
    (serverNonce clientNonce cryptoTs srvIp cltPort purpose cltIp srvPort
     middleProxySecret cltIPv6 srvIPv6 : List Nat) : List Nat × List Nat :=
  let s :=
    serverNonce ++ clientNonce ++ cryptoTs ++ srvIp ++ cltPort ++ purpose ++
    cltIp ++ srvPort ++ middleProxySecret ++ serverNonce ++
    (if cltIPv6 ≠ [] ∧ srvIPv6 ≠ [] then cltIPv6 ++ srvIPv6 else []) ++
    clientNonce
  ((md5 (s.drop 1)).take 12 ++ sha1 s, md5 (s.drop 2))

/-! ## Handshake engine (mtprotopy.py lines 1032-1290)

The engine's external effects (socket writes toward the client, the
stats/counter sinks, the client-IP cache) are not observed by any verified
property and are left out of the result types; the replay cache
`used_handshakes` and the `last_clients_with_time_skew` map are threaded
explicitly.  The cryptographic library calls (`hashlib.sha256`,
`hmac.new(..., sha256)`, AES-CTR) and the clock are parameters. -/

/-- A user record (config `users.toml`); `secret` holds the 16 bytes of
`bytes.fromhex(user["secret"])`.  The optional limit fields exist in the
configuration but — see `handleClientSpliceRuns` — are never actually read
by `handle_client`. -/
structure User where
  name : String
  secret : List Nat
  maxTcpConns : Option Nat := none
  expirationDate : Option String := none
  dataQuota : Option Nat := none
  deriving DecidableEq

/-- External primitives and configuration snapshot used by the handshake
engine. -/
structure HsEnv where
  /-- `hashlib.sha256(data).digest()`. -/
  sha256 : List Nat → List Nat
  /-- `hmac.new(key, msg, digestmod=hashlib.sha256).digest()`. -/
  hmacSha256 : List Nat → List Nat → List Nat
  /-- `create_aes_ctr(key, iv).decrypt(data)` (iv as a big-endian integer). -/
  aesCtrDecrypt : List Nat → Nat → List Nat → List Nat
  /-- `time.time()` (whole seconds). -/
  now : Int
  /-- `config["proxy"]["ignore_time_skew"]`. -/
  ignoreTimeSkew : Bool
  /-- module global `is_time_skewed`. -/
  isTimeSkewed : Bool
  /-- `config["proxy"]["replay_check_len"]`. -/
  replayCheckLen : Nat

/-- The eviction loop
`while len(used_handshakes) >= replay_check_len: popitem(last=False)`
(lines 1121-1122 and 1274-1275): `used` lists fingerprints oldest first, so
`popitem(last=False)` removes the head. -/
def evictWhile (cap : Nat) : List (List Nat) → List (List Nat)
  | [] => []
  | fp :: rest =>
      if cap ≤ (fp :: rest).length then evictWhile cap rest else fp :: rest

/-- Guarded insertion into the replay cache (lines 1120-1123, 1273-1276):
evict oldest entries while at capacity, then append; nothing happens when
`replay_check_len` is 0. -/
def insertReplay (cap : Nat) (fp : List Nat) (used : List (List Nat)) :
    List (List Nat) :=
  if 0 < cap then evictWhile cap used ++ [fp] else used

/-- Python dict assignment `d[k] = v` on an association list. -/
def setAssoc (k : String) (v : Int) (l : List (String × Int)) :
    List (String × Int) :=
  if l.any (fun p => p.1 = k) then
    l.map (fun p => if p.1 = k then (k, v) else p)
  else l ++ [(k, v)]

/-- Python dict lookup `d.get(k)` on an association list. -/
def getAssoc (k : String) : List (String × Int) → Option Int
  | [] => none
  | p :: rest => if p.1 = k then some p.2 else getAssoc k rest

/-- Outcome of one iteration of the per-user loop of
`handle_fake_tls_handshake` (lines 1067-1096), up to the point where the
ServerHello is built. -/
inductive UserStepRes where
  | mismatch
  | skew (minutes : Int)
  | accept (timestamp : Nat)
  deriving DecidableEq

/-- One iteration of the per-user loop of `handle_fake_tls_handshake`
(lines 1067-1096): HMAC the zeroed handshake, XOR against the client digest,
require 28 zero bytes, then check the trailing little-endian timestamp
against the time window. -/
def fakeTlsUserStep (env : HsEnv) (digest msg secret : List Nat) :
    UserStepRes :=
  let computedDigest := env.hmacSha256 secret msg
  let xoredDigest := List.zipWith (fun a b => a ^^^ b) digest computedDigest
  if xoredDigest.take 28 ≠ List.replicate 28 0 then .mismatch
  else
    let timestamp := leVal (xoredDigest.drop 28)
    let clientTimeIsOk : Bool :=
      decide ((-(20 * 60) : Int) < env.now - timestamp ∧
              env.now - (timestamp : Int) < 10 * 60)
    let clientTimeIsSmall : Bool := decide (timestamp < 60 * 60 * 24 * 1000)
    let acceptBadTime :=
      env.ignoreTimeSkew || env.isTimeSkewed || clientTimeIsSmall
    if !clientTimeIsOk && !acceptBadTime then
      .skew ((env.now - timestamp).fdiv 60)
    else .accept timestamp

/-- The full per-user loop of `handle_fake_tls_handshake`: returns the first
accepted user (if any) and the updated `last_clients_with_time_skew` map. -/
def fakeTlsLoop (env : HsEnv) (digest msg : List Nat) (peerIp : String) :
    List User → List (String × Int) → Option User × List (String × Int)
  | [], skews => (none, skews)
  | u :: rest, skews =>
    match fakeTlsUserStep env digest msg u.secret with
    | .mismatch => fakeTlsLoop env digest msg peerIp rest skews
    | .skew m => fakeTlsLoop env digest msg peerIp rest (setAssoc peerIp m skews)
    | .accept _ => (some u, skews)

/-- Outcome of `handle_fake_tls_handshake`: `probe` models the `False`
return (client treated as a probe and tunnelled to the cover host). -/
inductive FakeTlsOutcome where
  | probe
  | accepted (user : User)
  deriving DecidableEq

/-- `handle_fake_tls_handshake` (lines 1032-1136) up to its externally
visible protocol decisions: the replay check on the first 16 digest bytes,
the per-user HMAC/time-window loop, and on success the replay-cache
insertion.  The ServerHello bytes written back to the client and the
client-IP cache update are not modelled (no verified property reads them).
Result: `(outcome, used_handshakes, last_clients_with_time_skew)`. -/
def handleFakeTlsHandshake (env : HsEnv) (handshake : List Nat)
    (users : List User) (peerIp : String) (used : List (List Nat))
    (skews : List (String × Int)) :
    FakeTlsOutcome × List (List Nat) × List (String × Int) :=
  let digest := (handshake.drop 11).take 32
  if digest.take 16 ∈ used then (.probe, used, skews)
  else
    let msg := handshake.take 11 ++ List.replicate 32 0 ++ handshake.drop 43
    match fakeTlsLoop env digest msg peerIp users skews with
    | (none, skews) => (.probe, used, skews)
    | (some u, skews) =>
        (.accepted u, insertReplay env.replayCheckLen (digest.take 16) used,
         skews)

/-- Connection context returned by a successful `handle_handshake`
(line 1287): protocol tag, matched user name, signed DC index, the
encryption key+iv handed to the direct path, and the peer IP. -/
structure ClientCtx where
  protoTag : List Nat
  userName : String
  dcIdx : Int
  encKeyIv : List Nat
  peerIp : String
  deriving DecidableEq

/-- Result of `handle_handshake`: `err` models an exception propagating out
(truncated stream), `coverTunnel` models the `handle_bad_client` path
(tunnel to the cover host / drain) followed by a `False` return. -/
inductive HsResult where
  | err
  | coverTunnel
  | accepted (ctx : ClientCtx)
  deriving DecidableEq

/-- The inner per-user loop of `handle_handshake` (lines 1250-1290):
derive AES-CTR keys from the prekeys and the user secret, decrypt the
64-byte block, check the protocol tag, read the DC index, and on success
record the 48-byte fingerprint in the replay cache. -/
def innerUserLoop (env : HsEnv)
    (decPrekey decIv encPrekey encIv decPrekeyAndIv inner : List Nat)
    (peerIp : String) (used : List (List Nat)) :
    List User → HsResult × List (List Nat)
  | [] => (.coverTunnel, used)
  | u :: rest =>
    let decKey := env.sha256 (decPrekey ++ u.secret)
    let encKey := env.sha256 (encPrekey ++ u.secret)
    let decrypted := env.aesCtrDecrypt decKey (beVal decIv) inner
    let protoTag := (decrypted.drop 56).take 4
    if protoTag ≠ protoTagAbridged ∧ protoTag ≠ protoTagIntermediate ∧
       protoTag ≠ protoTagSecure then
      innerUserLoop env decPrekey decIv encPrekey encIv decPrekeyAndIv inner
        peerIp used rest
    else
      let dcIdx := leSignedVal 2 ((decrypted.drop 60).take 2)
      let used := insertReplay env.replayCheckLen decPrekeyAndIv used
      (.accepted ⟨protoTag, u.name, dcIdx, encKey ++ encIv, peerIp⟩, used)

/-- Processing of the inner 64-byte obfuscated handshake block
(lines 1240-1290): slice out the decryption prekey+iv (`handshake[8:56]`)
and its byte reverse for encryption, reject replayed fingerprints, then run
the per-user loop. -/
def processInnerHandshake (env : HsEnv) (users : List User) (peerIp : String)
    (inner : List Nat) (used : List (List Nat)) :
    HsResult × List (List Nat) :=
  let decPrekeyAndIv := (inner.drop 8).take 48
  let decPrekey := decPrekeyAndIv.take 32
  let decIv := decPrekeyAndIv.drop 32
  let encPrekeyAndIv := decPrekeyAndIv.reverse
  let encPrekey := encPrekeyAndIv.take 32
  let encIv := encPrekeyAndIv.drop 32
  if decPrekeyAndIv ∈ used then (.coverTunnel, used)
  else
    innerUserLoop env decPrekey decIv encPrekey encIv decPrekeyAndIv inner
      peerIp used users

/-- Result of `FakeTLSStreamReader.readexactly`: `ok` carries the collected
bytes, `short` models the `return b""` paths (bad record type or version, or
an empty record), `eof` models `IncompleteReadError` from the upstream. -/
inductive TlsReadResult where
  | ok (data : List Nat)
  | short
  | eof
  deriving DecidableEq

/-- `FakeTLSStreamReader.readexactly(n)` (lines 521-554): repeatedly parse a
TLS record — type byte in {0x14, 0x17}, version 0x0303, 2-byte big-endian
length, payload — discarding ChangeCipherSpec (0x14) records and
accumulating ApplicationData (0x17) payloads until `n` bytes are buffered.
Leftover buffered bytes beyond `n` are not consumed by any later modelled
operation and are dropped. -/
def fakeTlsCollect (n : Nat) (buf stream : List Nat) : TlsReadResult :=
  if n ≤ buf.length then .ok (buf.take n)
  else
    match stream with
    | t :: v1 :: v2 :: l1 :: l2 :: rest =>
      if t = 0x14 ∨ t = 0x17 then
        if v1 = 3 ∧ v2 = 3 then
          let dataLen := 256 * l1 + l2
          if dataLen ≤ rest.length then
            if t = 0x14 then fakeTlsCollect n buf (rest.drop dataLen)
            else if rest.take dataLen = [] then .short
            else fakeTlsCollect n (buf ++ rest.take dataLen) (rest.drop dataLen)
          else .eof
        else .short
      else .short
    | _ => .eof
  termination_by stream.length
  decreasing_by
    · simp only [List.length_drop, List.length_cons]
      omega
    · simp only [List.length_drop, List.length_cons]
      omega

/-- `TLS_START_BYTES` (line 1200): the TLS 1.3 ClientHello prefix the outer
probe detection matches byte by byte. -/
def tlsStartBytes : List Nat :=
  [0x16, 0x03, 0x01, 0x02, 0x00, 0x01, 0x00, 0x01, 0xfc, 0x03, 0x03]

/-- The byte-by-byte prefix loop of `handle_handshake` (lines 1217-1223):
`some true` when all expected bytes matched, `some false` as soon as one
byte differs, `none` when the stream ends before a decision. -/
def prefixScan : List Nat → List Nat → Option Bool
  | [], _ => some true
  | _ :: _, [] => none
  | e :: exps, s :: rest => if s ≠ e then some false else prefixScan exps rest

/-- `handle_handshake` (lines 1194-1290) with `proxy_protocol` disabled (its
default; no verified property concerns PROXY-header rewriting).  A client
whose first bytes do not match `TLS_START_BYTES` is handed to
`handle_bad_client` (cover tunnel) — there is no plain (non-FakeTLS) path.
On a FakeTLS match the remaining bytes of the 517-byte outer handshake are
read, `handle_fake_tls_handshake` runs, and on success the inner 64-byte
block is read through the FakeTLS record reader and processed; a `short`
inner read proceeds with `b""` exactly as the code does.
Result: `(outcome, used_handshakes, last_clients_with_time_skew)`. -/
def handleHandshake (env : HsEnv) (users : List User) (peerIp : String)
    (stream : List Nat) (used : List (List Nat))
    (skews : List (String × Int)) :
    HsResult × List (List Nat) × List (String × Int) :=
  match prefixScan tlsStartBytes stream with
  | none => (.err, used, skews)
  | some false => (.coverTunnel, used, skews)
  | some true =>
    if stream.length < 517 then (.err, used, skews)
    else
      let handshake := stream.take 517
      match handleFakeTlsHandshake env handshake users peerIp used skews with
      | (.probe, used, skews) => (.coverTunnel, used, skews)
      | (.accepted _, used, skews) =>
        match fakeTlsCollect 64 [] (stream.drop 517) with
        | .eof => (.err, used, skews)
        | .short =>
          let (r, used) := processInnerHandshake env users peerIp [] used
          (r, used, skews)
        | .ok inner =>
          let (r, used) := processInnerHandshake env users peerIp inner used
          (r, used, skews)

/-- The guard of `handle_client` (lines 1640-1650): `do_direct_handshake`
and `do_middleproxy_handshake` — the only code paths that send any byte
toward a Telegram DC — run only when `handle_handshake` returned client
data, i.e. did not return `False`. -/
def handleClientContactsDc (env : HsEnv) (users : List User) (peerIp : String)
    (stream : List Nat) (used : List (List Nat))
    (skews : List (String × Int)) : Bool :=
  match (handleHandshake env users peerIp stream used skews).1 with
  | .accepted _ => true
  | _ => false

/-! ## Per-user limit enforcement in handle_client (lines 1711-1729) -/

/-- Python equality between a user record (a dict) and a string: always
`False`. -/
def pyUserEqString (_ : User) (_ : String) : Bool := false

/-- Python `s in it` where `it` iterates user records: compares each record
to the string `s`, so it never finds a match. -/
def pyStrInUsers (s : String) (l : List User) : Bool :=
  l.any (fun u => pyUserEqString u s)

/-- The splice guard of `handle_client` (lines 1711-1729).
`user = filter(lambda ...)` leaves `user` a filter object, and each
`"key" in user` membership test compares the string against user records,
yielding `False`; the right operands of the `and`s (which would subscript
the filter object and raise `TypeError`) are short-circuited away and are
omitted here as unreachable.  Returns whether the bidirectional splice is
started. -/
def handleClientSpliceRuns (users : List User) (username : String)
    (_currConnects _octetsToClient _octetsFromClient : Nat) : Bool :=
  let user := users.filter (fun u => u.name = username)
  let tcpLimitHit := pyStrInUsers "max_tcp_conns" user
  let userExpired := pyStrInUsers "expiration_date" user
  let userDataQuotaHit := pyStrInUsers "data_quota" user
  !tcpLimitHit && !userExpired && !userDataQuotaHit

/-- Whether a handshake result is an acceptance (observable as: the
connection proceeds to a Telegram DC). -/
def hsAccepted : HsResult → Bool
  | .accepted _ => true
  | _ => false

/-! ## Little-endian encoding lemmas -/

theorem leBytes_length (n w : Nat) : (leBytes n w).length = w := by
  induction w generalizing n with
  | zero => rfl
  | succ w ih => simp [leBytes, ih]

theorem leBytes_mem_lt {n w x : Nat} (hx : x ∈ leBytes n w) : x < 256 := by
  induction w generalizing n with
  | zero => simp [leBytes] at hx
  | succ w ih =>
    simp only [leBytes, List.mem_cons] at hx
    rcases hx with h | h
    · subst h; exact Nat.mod_lt _ (by norm_num)
    · exact ih h

theorem leVal_leBytes {n w : Nat} (h : n < 256 ^ w) :
    leVal (leBytes n w) = n := by
  induction w generalizing n with
  | zero => interval_cases n; rfl
  | succ w ih =>
    have hdiv : n / 256 < 256 ^ w := by
      rw [Nat.div_lt_iff_lt_mul (by norm_num)]
      calc n < 256 ^ (w + 1) := h
        _ = 256 ^ w * 256 := by ring
    simp only [leBytes, leVal, ih hdiv]
    omega

theorem leVal_lt {l : List Nat} (h : ∀ x ∈ l, x < 256) :
    leVal l < 256 ^ l.length := by
  induction l with
  | nil => simp [leVal]
  | cons b rest ih =>
    have hb : b < 256 := h b (List.mem_cons_self ..)
    have hr := ih (fun x hx => h x (List.mem_cons_of_mem _ hx))
    simp only [leVal, List.length_cons, pow_succ]
    calc b + 256 * leVal rest < 256 + 256 * leVal rest := by omega
      _ = 256 * (leVal rest + 1) := by ring
      _ ≤ 256 * 256 ^ rest.length := by
          exact Nat.mul_le_mul_left _ (by omega)
      _ = 256 ^ rest.length * 256 := by ring

theorem leVal_inj {l1 l2 : List Nat} (hlen : l1.length = l2.length)
    (h1 : ∀ x ∈ l1, x < 256) (h2 : ∀ x ∈ l2, x < 256)
    (h : leVal l1 = leVal l2) : l1 = l2 := by
  induction l1 generalizing l2 with
  | nil => cases l2 with
    | nil => rfl
    | cons b rest => simp at hlen
  | cons a rest ih =>
    cases l2 with
    | nil => simp at hlen
    | cons b rest2 =>
      have ha : a < 256 := h1 a (List.mem_cons_self ..)
      have hb : b < 256 := h2 b (List.mem_cons_self ..)
      simp only [leVal] at h
      have hhead : a = b := by omega
      subst hhead
      have htail : leVal rest = leVal rest2 := by omega
      have := ih (by simpa using hlen)
        (fun x hx => h1 x (List.mem_cons_of_mem _ hx))
        (fun x hx => h2 x (List.mem_cons_of_mem _ hx)) htail
      rw [this]

theorem leSignedBytes_length (w : Nat) (i : Int) :
    (leSignedBytes w i).length = w := leBytes_length _ _

theorem natPow256_cast (w : Nat) :
    ((256 : Nat) ^ w : Int) = (2 : Int) ^ (8 * w) := by
  push_cast
  rw [show (256 : Int) = 2 ^ 8 by norm_num, ← pow_mul]

theorem leSignedVal_leSignedBytes {w : Nat} (hw : 0 < w) {i : Int}
    (hlo : -(2 ^ (8 * w - 1)) ≤ i) (hhi : i < 2 ^ (8 * w - 1)) :
    leSignedVal w (leSignedBytes w i) = i := by
  have hpow : (2 : Int) ^ (8 * w) = 2 ^ (8 * w - 1) * 2 := by
    rw [← pow_succ]
    congr 1
    omega
  have hB : (0 : Int) < 2 ^ (8 * w - 1) := by positivity
  have hnat := natPow256_cast w
  have hcast1 : ((2 ^ (8 * w - 1) : Nat) : Int) = (2 : Int) ^ (8 * w - 1) := by
    push_cast
    rfl
  unfold leSignedVal leSignedBytes
  by_cases hi : 0 ≤ i
  · have hmodeq : i % ((2 : Int) ^ (8 * w)) = i :=
      Int.emod_eq_of_lt hi (by omega)
    rw [hmodeq, leVal_leBytes (by omega)]
    rw [if_pos (by omega)]
    omega
  · have hmodeq : i % ((2 : Int) ^ (8 * w)) = i + 2 ^ (8 * w) := by
      calc i % ((2 : Int) ^ (8 * w))
          = (i + 2 ^ (8 * w) * 1) % 2 ^ (8 * w) := by
            rw [Int.add_mul_emod_self_left]
        _ = i + 2 ^ (8 * w) := by
            rw [mul_one]
            exact Int.emod_eq_of_lt (by omega) (by omega)
    rw [hmodeq, leVal_leBytes (by omega)]
    rw [if_neg (by omega)]
    omega

theorem leSignedVal_inj {w : Nat} {l1 l2 : List Nat}
    (hw1 : l1.length = w) (hw2 : l2.length = w)
    (h1 : ∀ x ∈ l1, x < 256) (h2 : ∀ x ∈ l2, x < 256)
    (h : leSignedVal w l1 = leSignedVal w l2) : l1 = l2 := by
  have hv1 : leVal l1 < 256 ^ w := hw1 ▸ leVal_lt h1
  have hv2 : leVal l2 < 256 ^ w := hw2 ▸ leVal_lt h2
  have hnat := natPow256_cast w
  have hcast1 : ((2 ^ (8 * w - 1) : Nat) : Int) = (2 : Int) ^ (8 * w - 1) := by
    push_cast
    rfl
  have hveq : leVal l1 = leVal l2 := by
    unfold leSignedVal at h
    split at h <;> split at h <;> omega
  exact leVal_inj (by omega) h1 h2 hveq

/-! ## CRC-32 range lemmas -/

theorem crcRound_lt {c : Nat} (h : c < 2 ^ 32) : crcRound c < 2 ^ 32 := by
  unfold crcRound
  have hp : crcPoly < 2 ^ 32 := by norm_num [crcPoly]
  split
  · exact Nat.xor_lt_two_pow (by omega) hp
  · omega

theorem crcRound_iter_lt {b : Nat} (k : Nat) (h : b < 2 ^ 32) :
    crcRound^[k] b < 2 ^ 32 := by
  induction k with
  | zero => simpa
  | succ k ih => rw [Function.iterate_succ_apply']; exact crcRound_lt ih

theorem crcTable_lt {b : Nat} (h : b < 2 ^ 32) : crcTable b < 2 ^ 32 :=
  crcRound_iter_lt 8 h

theorem crc32Update_lt {c : Nat} (b : Nat) (h : c < 2 ^ 32) :
    crc32Update c b < 2 ^ 32 := by
  unfold crc32Update
  exact Nat.xor_lt_two_pow (by omega)
    (crcTable_lt (lt_trans (Nat.mod_lt _ (by norm_num)) (by norm_num)))

theorem crc32Aux_lt {c : Nat} {l : List Nat} (h : c < 2 ^ 32) :
    crc32Aux c l < 2 ^ 32 := by
  induction l generalizing c with
  | nil => simpa [crc32Aux]
  | cons b rest ih => exact ih (crc32Update_lt b h)

theorem crc32_lt (l : List Nat) : crc32 l < 2 ^ 32 := by
  unfold crc32
  exact Nat.xor_lt_two_pow (crc32Aux_lt (by norm_num)) (by norm_num)

/-! ## CRC-32 is affine over GF(2): a single corrupted byte always changes
the checksum.  This is the error-detection property behind the FULL-framing
reader's checksum comparison. -/

theorem xor_div_two_pow (x y k : Nat) :
    (x ^^^ y) / 2 ^ k = x / 2 ^ k ^^^ y / 2 ^ k := by
  have hx := Nat.shiftRight_eq_div_pow x k
  have hy := Nat.shiftRight_eq_div_pow y k
  have hxy := Nat.shiftRight_eq_div_pow (x ^^^ y) k
  rw [← hx, ← hy, ← hxy]
  apply Nat.eq_of_testBit_eq
  intro i
  simp [Nat.testBit_shiftRight, Nat.testBit_xor]

theorem xor_mod_two_pow (x y k : Nat) :
    (x ^^^ y) % 2 ^ k = x % 2 ^ k ^^^ y % 2 ^ k := by
  apply Nat.eq_of_testBit_eq
  intro i
  simp only [Nat.testBit_mod_two_pow, Nat.testBit_xor]
  by_cases h : i < k <;> simp [h]

theorem xor_div_two (x y : Nat) : (x ^^^ y) / 2 = x / 2 ^^^ y / 2 := by
  simpa using xor_div_two_pow x y 1

theorem xor_mod_two (x y : Nat) : (x ^^^ y) % 2 = x % 2 ^^^ y % 2 := by
  simpa using xor_mod_two_pow x y 1

theorem xorLeftComm (a b c : Nat) : a ^^^ (b ^^^ c) = b ^^^ (a ^^^ c) := by
  rw [← Nat.xor_assoc, Nat.xor_comm a b, Nat.xor_assoc]

theorem crcRound_linear (x y : Nat) :
    crcRound (x ^^^ y) = crcRound x ^^^ crcRound y := by
  unfold crcRound
  have hm := xor_mod_two x y
  have hd := xor_div_two x y
  rcases Nat.mod_two_eq_zero_or_one x with hx | hx <;>
    rcases Nat.mod_two_eq_zero_or_one y with hy | hy <;>
      rw [hx, hy] at hm <;> simp only [hx, hy] at * <;>
        simp_all [Nat.xor_assoc, Nat.xor_comm, xorLeftComm,
          Nat.xor_cancel_left]

theorem crcRound_iter_linear (k x y : Nat) :
    crcRound^[k] (x ^^^ y) = crcRound^[k] x ^^^ crcRound^[k] y := by
  induction k with
  | zero => simp
  | succ k ih =>
    simp only [Function.iterate_succ_apply', ih, crcRound_linear]

theorem crcTable_linear (x y : Nat) :
    crcTable (x ^^^ y) = crcTable x ^^^ crcTable y :=
  crcRound_iter_linear 8 x y

theorem crc32Update_xor_state (c e b : Nat) :
    crc32Update (c ^^^ e) b = crc32Update c b ^^^ crcM0 e := by
  unfold crc32Update crcM0
  have h1 : ((c ^^^ e) ^^^ b) % 256 = (c ^^^ b) % 256 ^^^ e % 256 := by
    rw [show ((c ^^^ e) ^^^ b) = (c ^^^ b) ^^^ e by
      simp [Nat.xor_assoc, Nat.xor_comm, xorLeftComm]]
    simpa using xor_mod_two_pow (c ^^^ b) e 8
  have h2 : (c ^^^ e) / 256 = c / 256 ^^^ e / 256 := by
    simpa using xor_div_two_pow c e 8
  rw [h1, h2, crcTable_linear]
  simp [Nat.xor_assoc, Nat.xor_comm, xorLeftComm]

theorem crc32Update_xor_byte (c b f : Nat) :
    crc32Update c (b ^^^ f) = crc32Update c b ^^^ crcTable (f % 256) := by
  unfold crc32Update
  have h1 : (c ^^^ (b ^^^ f)) % 256 = (c ^^^ b) % 256 ^^^ f % 256 := by
    rw [show (c ^^^ (b ^^^ f)) = (c ^^^ b) ^^^ f by
      simp [Nat.xor_assoc]]
    simpa using xor_mod_two_pow (c ^^^ b) f 8
  rw [h1, crcTable_linear]
  simp [Nat.xor_assoc]

theorem crc32Aux_append (c : Nat) (l1 l2 : List Nat) :
    crc32Aux c (l1 ++ l2) = crc32Aux (crc32Aux c l1) l2 := by
  induction l1 generalizing c with
  | nil => rfl
  | cons b rest ih => simp [crc32Aux, ih]

theorem crc32Aux_xor_state (c e : Nat) (l : List Nat) :
    crc32Aux (c ^^^ e) l = crc32Aux c l ^^^ crcM0^[l.length] e := by
  induction l generalizing c e with
  | nil => simp [crc32Aux]
  | cons b rest ih =>
    simp only [crc32Aux, List.length_cons]
    rw [crc32Update_xor_state, ih, Function.iterate_succ_apply]

theorem crcM0_lt {x : Nat} (h : x < 2 ^ 32) : crcM0 x < 2 ^ 32 := by
  unfold crcM0
  exact Nat.xor_lt_two_pow (by omega)
    (crcTable_lt (lt_trans (Nat.mod_lt _ (by norm_num)) (by norm_num)))

theorem crcM0_zero : crcM0 0 = 0 := by decide

theorem xor_shiftRight (x y k : Nat) :
    (x ^^^ y) >>> k = x >>> k ^^^ y >>> k := by
  apply Nat.eq_of_testBit_eq
  intro i
  simp [Nat.testBit_shiftRight, Nat.testBit_xor]

set_option maxRecDepth 10000 in
theorem crcTableTop_ne_zero :
    ∀ i, i < 256 → 0 < i → crcTable i >>> 24 ≠ 0 := by decide

theorem crcTableTop_inj {i j : Nat} (hi : i < 256) (hj : j < 256)
    (h : crcTable i >>> 24 = crcTable j >>> 24) : i = j := by
  have he : i ^^^ j < 256 := Nat.xor_lt_two_pow (n := 8) hi hj
  by_contra hne
  have hne0 : 0 < i ^^^ j := by
    rcases Nat.eq_zero_or_pos (i ^^^ j) with h0 | h0
    · exact absurd (Nat.xor_eq_zero.mp h0) hne
    · exact h0
  apply crcTableTop_ne_zero (i ^^^ j) he hne0
  rw [crcTable_linear, xor_shiftRight, h, Nat.xor_self]

theorem crcM0_inj {x y : Nat} (hx : x < 2 ^ 32) (hy : y < 2 ^ 32)
    (h : crcM0 x = crcM0 y) : x = y := by
  have hxd : x / 256 < 2 ^ 24 := by omega
  have hyd : y / 256 < 2 ^ 24 := by omega
  have htop : ∀ z : Nat, z / 256 < 2 ^ 24 →
      crcM0 z >>> 24 = crcTable (z % 256) >>> 24 := by
    intro z hz
    unfold crcM0
    apply Nat.eq_of_testBit_eq
    intro i
    simp only [Nat.testBit_shiftRight, Nat.testBit_xor]
    have hzero : (z / 256).testBit (24 + i) = false := by
      apply Nat.testBit_eq_false_of_lt
      calc z / 256 < 2 ^ 24 := hz
        _ ≤ 2 ^ (24 + i) := Nat.pow_le_pow_right (by norm_num) (by omega)
    simp [hzero]
  have hmods : x % 256 = y % 256 := by
    apply crcTableTop_inj (Nat.mod_lt _ (by norm_num)) (Nat.mod_lt _ (by norm_num))
    rw [← htop x hxd, ← htop y hyd, h]
  have hdivs : x / 256 = y / 256 := by
    unfold crcM0 at h
    rw [hmods] at h
    have := congrArg (fun t => t ^^^ crcTable (y % 256)) h
    simpa [Nat.xor_cancel_right] using this
  omega

theorem crcM0_iter_ne_zero {x : Nat} (n : Nat) (hx : x < 2 ^ 32)
    (hne : x ≠ 0) : crcM0^[n] x ≠ 0 ∧ crcM0^[n] x < 2 ^ 32 := by
  induction n with
  | zero => simpa using ⟨hne, hx⟩
  | succ n ih =>
    obtain ⟨ihne, ihlt⟩ := ih
    rw [Function.iterate_succ_apply']
    refine ⟨?_, crcM0_lt ihlt⟩
    intro h0
    exact ihne (crcM0_inj ihlt (by norm_num) (h0.trans crcM0_zero.symm))

set_option maxRecDepth 10000 in
theorem crcTable_ne_zero : ∀ e, e < 256 → 0 < e → crcTable e ≠ 0 := by decide

theorem crc32_ne_single_byte (pre suf : List Nat) {b b' : Nat}
    (hb : b < 256) (hb' : b' < 256) (hne : b ≠ b') :
    crc32 (pre ++ b :: suf) ≠ crc32 (pre ++ b' :: suf) := by
  set e := b ^^^ b' with he
  have helt : e < 256 := Nat.xor_lt_two_pow (n := 8) (by omega) (by omega)
  have hene : e ≠ 0 := fun h => hne (Nat.xor_eq_zero.mp h)
  have hb'eq : b' = b ^^^ e := by
    rw [he, ← Nat.xor_assoc, Nat.xor_self, Nat.zero_xor]
  unfold crc32
  intro hcontra
  have haux : crc32Aux 0xFFFFFFFF (pre ++ b :: suf) =
      crc32Aux 0xFFFFFFFF (pre ++ b' :: suf) := by
    have h1 := crc32Aux_lt (c := 0xFFFFFFFF) (l := pre ++ b :: suf) (by norm_num)
    have h2 := crc32Aux_lt (c := 0xFFFFFFFF) (l := pre ++ b' :: suf) (by norm_num)
    have := congrArg (fun t => t ^^^ 0xFFFFFFFF) hcontra
    simpa [Nat.xor_cancel_right] using this
  rw [crc32Aux_append, crc32Aux_append] at haux
  set c := crc32Aux 0xFFFFFFFF pre with hc
  simp only [crc32Aux] at haux
  rw [hb'eq, crc32Update_xor_byte, Nat.mod_eq_of_lt helt,
    crc32Aux_xor_state] at haux
  have htne : crcTable e ≠ 0 := crcTable_ne_zero e helt (by omega)
  have htlt : crcTable e < 2 ^ 32 := crcTable_lt (by omega)
  obtain ⟨hiterne, _⟩ := crcM0_iter_ne_zero suf.length htlt htne
  have hzero : crcM0^[suf.length] (crcTable e) = 0 := by
    have h2 := congrArg
      (fun t => crc32Aux (crc32Update c b) suf ^^^ t) haux.symm
    simpa [Nat.xor_cancel_left, Nat.xor_self] using h2
  exact hiterne hzero

/-! ## FULL framing: parsing a framed buffer -/

theorem set_append_ge {α : Type} {l1 l2 : List α} {i : Nat} {v : α}
    (h : l1.length ≤ i) :
    (l1 ++ l2).set i v = l1 ++ l2.set (i - l1.length) v := by
  rw [List.set_append, if_neg (by omega)]

theorem set_append_lt {α : Type} {l1 l2 : List α} {i : Nat} {v : α}
    (h : i < l1.length) :
    (l1 ++ l2).set i v = l1.set i v ++ l2 := by
  rw [List.set_append, if_pos h]

theorem set_self_eq {α : Type} {l : List α} {i : Nat} (h : i < l.length) :
    l.set i l[i] = l := by
  apply List.ext_getElem (by simp)
  intro j h1 h2
  rw [List.getElem_set]
  split
  · subst j; rfl
  · rfl

theorem set_mem_lt {l : List Nat} {i v : Nat} (hv : v < 256)
    (hl : ∀ x ∈ l, x < 256) : ∀ x ∈ l.set i v, x < 256 := by
  intro x hx
  rcases List.mem_or_eq_of_mem_set hx with h | h
  · exact hl x h
  · omega

theorem mtReadLen_append {bs : List Nat} (rest : List Nat)
    (h4 : bs.length = 4)
    (hne : leVal bs ≠ 4) : mtReadLen (bs ++ rest) = some (leVal bs, bs, rest) := by
  match bs, h4 with
  | [a, b, c, d], _ =>
    simp only [List.cons_append, List.nil_append, mtReadLen, if_neg hne]
    rfl

/-- Normal form of `mtFrameRead` on a syntactically well-shaped framed
buffer, with the sequence and checksum comparisons left symbolic. -/
theorem mtFrameRead_checks (msg seqB crcB tail : List Nat) (n : Int)
    (halign : msg.length % 4 = 0) (hsize : msg.length ≤ 2 ^ 24 - 12)
    (hseq : seqB.length = 4) (hcrc : crcB.length = 4) :
    mtFrameRead (leBytes (msg.length + 12) 4 ++ seqB ++ msg ++ crcB ++ tail) n =
      if leSignedVal 4 seqB ≠ n then none
      else if crc32 (leBytes (msg.length + 12) 4 ++ seqB ++ msg) ≠ leVal crcB
        then none
      else some (msg, n + 1, tail) := by
  set lenB := leBytes (msg.length + 12) 4 with hlenB
  have hlenB4 : lenB.length = 4 := leBytes_length _ _
  have hlenval : leVal lenB = msg.length + 12 :=
    leVal_leBytes (by norm_num; omega)
  have hstream :
      lenB ++ seqB ++ msg ++ crcB ++ tail =
      lenB ++ (seqB ++ (msg ++ (crcB ++ tail))) := by
    simp [List.append_assoc]
  rw [hstream]
  have hread := mtReadLen_append (seqB ++ (msg ++ (crcB ++ tail)))
    hlenB4 (by omega)
  unfold mtFrameRead
  rw [hread]
  have h24 : (2 : Nat) ^ 24 = 16777216 := by norm_num
  have hrestlen : (seqB ++ (msg ++ (crcB ++ tail))).length =
      msg.length + 8 + tail.length := by
    simp
    omega
  rw [hlenval]
  dsimp only
  rw [hrestlen]
  rw [if_neg (by push_neg; exact ⟨⟨by omega, by omega⟩, by omega⟩)]
  rw [if_neg (by omega)]
  have htake4 : (seqB ++ (msg ++ (crcB ++ tail))).take 4 = seqB := by
    rw [← hseq, List.take_left]
  have hdrop4 : (seqB ++ (msg ++ (crcB ++ tail))).drop 4 = msg ++ (crcB ++ tail) := by
    rw [← hseq, List.drop_left]
  have hdata : ((seqB ++ (msg ++ (crcB ++ tail))).drop 4).take
      (msg.length + 12 - 12) = msg := by
    rw [hdrop4]
    have : msg.length + 12 - 12 = msg.length := by omega
    rw [this, List.take_left]
  have hdropc : (seqB ++ (msg ++ (crcB ++ tail))).drop (msg.length + 12 - 8) =
      crcB ++ tail := by
    have e1 : msg.length + 12 - 8 = 4 + msg.length := by omega
    rw [e1, ← List.drop_drop, hdrop4, List.drop_left]
  have hcheck : ((seqB ++ (msg ++ (crcB ++ tail))).drop
      (msg.length + 12 - 8)).take 4 = crcB := by
    rw [hdropc, ← hcrc, List.take_left]
  have hdroptail : (seqB ++ (msg ++ (crcB ++ tail))).drop (msg.length + 12 - 4) =
      tail := by
    have e1 : msg.length + 12 - 4 = (4 + msg.length) + 4 := by omega
    rw [e1, ← List.drop_drop, ← List.drop_drop, hdrop4, List.drop_left,
      ← hcrc, List.drop_left]
  simp only [htake4, hdata, hcheck, hdroptail]

theorem mtFrameRead_framed_ok (msg seqB crcB tail : List Nat) (n : Int)
    (halign : msg.length % 4 = 0) (hsize : msg.length ≤ 2 ^ 24 - 12)
    (hseq : seqB.length = 4) (hcrc : crcB.length = 4)
    (hseqval : leSignedVal 4 seqB = n)
    (hcrcval : leVal crcB = crc32 (leBytes (msg.length + 12) 4 ++ seqB ++ msg)) :
    mtFrameRead (leBytes (msg.length + 12) 4 ++ seqB ++ msg ++ crcB ++ tail) n =
      some (msg, n + 1, tail) := by
  rw [mtFrameRead_checks msg seqB crcB tail n halign hsize hseq hcrc]
  rw [if_neg (by simp [hseqval]), if_neg (by omega)]

theorem mtFrameRead_framed_badseq (msg seqB crcB tail : List Nat) (n : Int)
    (halign : msg.length % 4 = 0) (hsize : msg.length ≤ 2 ^ 24 - 12)
    (hseq : seqB.length = 4) (hcrc : crcB.length = 4)
    (hseqval : leSignedVal 4 seqB ≠ n) :
    mtFrameRead (leBytes (msg.length + 12) 4 ++ seqB ++ msg ++ crcB ++ tail) n =
      none := by
  rw [mtFrameRead_checks msg seqB crcB tail n halign hsize hseq hcrc]
  rw [if_pos hseqval]

theorem mtFrameRead_framed_badcrc (msg seqB crcB tail : List Nat) (n : Int)
    (halign : msg.length % 4 = 0) (hsize : msg.length ≤ 2 ^ 24 - 12)
    (hseq : seqB.length = 4) (hcrc : crcB.length = 4)
    (hcrcval : crc32 (leBytes (msg.length + 12) 4 ++ seqB ++ msg) ≠ leVal crcB) :
    mtFrameRead (leBytes (msg.length + 12) 4 ++ seqB ++ msg ++ crcB ++ tail) n =
      none := by
  rw [mtFrameRead_checks msg seqB crcB tail n halign hsize hseq hcrc]
  by_cases hs : leSignedVal 4 seqB ≠ n
  · rw [if_pos hs]
  · rw [if_neg hs, if_pos hcrcval]

/-- `mtFrameWrite` laid out as its five segments. -/
theorem mtFrameWrite_eq (msg : List Nat) (n : Int) :
    mtFrameWrite msg n =
      leBytes (msg.length + 12) 4 ++ leSignedBytes 4 n ++ msg ++
      leBytes (crc32 (leBytes (msg.length + 12) 4 ++ leSignedBytes 4 n ++ msg)) 4 ++
      (List.replicate (((16 - (msg.length + 12) % 16) % 16) / 4)
        mtPaddingFiller).flatten := by
  unfold mtFrameWrite
  simp only [show msg.length + 4 + 4 + 4 = msg.length + 12 from by omega,
    List.append_assoc, List.length_append, leBytes_length, leSignedBytes_length]
  rw [show 4 + (4 + (msg.length + 4)) = msg.length + 12 from by omega]

/-! ## Claim theorems -/

/-- C10: misaligned writes are rejected without emitting any bytes — for a
payload whose length is not a multiple of 4, `MTProtoCompactFrameStreamWriter.write`
and `ProxyReqStreamWriter.write` return 0 and pass nothing to the upstream
writer, and for a payload whose length is not a multiple of the (positive)
configured block size, `CryptoWrappedStreamWriter.write` returns 0 and
passes nothing upstream. -/
theorem c10_misaligned_writes (data : List Nat) (simpleAck quickAck : Bool)
    (encrypt : List Nat → List Nat) (blockSize : Nat)
    (protoTag remoteIpPort ourIpPort outConnId adTag : List Nat) :
    (data.length % 4 ≠ 0 →
      mtCompactWrite data simpleAck = ([], 0) ∧
      proxyReqWrite protoTag remoteIpPort ourIpPort outConnId adTag quickAck
        data = ([], 0)) ∧
    (0 < blockSize → data.length % blockSize ≠ 0 →
      cryptoWrite encrypt blockSize data = ([], 0)) := by
  refine ⟨fun h => ⟨?_, ?_⟩, fun _ h => ?_⟩
  · unfold mtCompactWrite
    rw [if_pos h]
  · unfold proxyReqWrite
    rw [if_pos h]
  · unfold cryptoWrite
    rw [if_pos h]

/-- Witness for C10 at the 3-byte payload `[1, 2, 3]` and block size 16. -/
theorem c10_misaligned_writes_witness :
    mtCompactWrite [1, 2, 3] false = ([], 0) ∧
    proxyReqWrite protoTagAbridged [] [] [] [] false [1, 2, 3] = ([], 0) ∧
    cryptoWrite (fun l => l) 16 [1, 2, 3] = ([], 0) := by
  have h := c10_misaligned_writes [1, 2, 3] false false (fun l => l) 16
    protoTagAbridged [] [] [] []
  exact ⟨(h.1 (by decide)).1, (h.1 (by decide)).2, h.2 (by decide) (by decide)⟩

/-- C6: for an RPC envelope writer constructed with the ABRIDGED protocol
tag, writing a 4-byte-aligned payload whose first 8 bytes are all zero,
with no QUICKACK flag, produces a flags field equal to exactly
`HAS_AD_TAG ||| MAGIC ||| EXTMODE2 ||| ABRIDGED ||| NOT_ENCRYPTED`
(0x8 ||| 0x1000 ||| 0x20000 ||| 0x40000000 ||| 0x2) with no other bits set;
the field occupies bytes 4..7 of the emitted envelope. -/
theorem c6_rpc_flags (remoteIpPort ourIpPort outConnId adTag msg : List Nat)
    (halign : msg.length % 4 = 0) (hzero : msg.take 8 = List.replicate 8 0)
    (hlen8 : 8 ≤ msg.length) :
    proxyReqFlags protoTagAbridged false msg =
      (0x8 ||| 0x1000 ||| 0x20000 ||| 0x40000000 ||| 0x2) ∧
    ((proxyReqWrite protoTagAbridged remoteIpPort ourIpPort outConnId adTag
        false msg).1.drop 4).take 4 =
      leBytes (0x8 ||| 0x1000 ||| 0x20000 ||| 0x40000000 ||| 0x2) 4 := by
  have hflags : proxyReqFlags protoTagAbridged false msg =
      0x8 ||| 0x1000 ||| 0x20000 ||| 0x40000000 ||| 0x2 := by
    have hcond : List.take 8 msg = List.replicate 8 0 ∧ 8 ≤ msg.length :=
      ⟨hzero, hlen8⟩
    unfold proxyReqFlags
    simp [hcond]
  refine ⟨hflags, ?_⟩
  unfold proxyReqWrite
  rw [if_neg (by omega)]
  dsimp only
  rw [hflags]
  simp only [List.append_assoc]
  rw [List.drop_left' (n := 4)
      (show ([0xee, 0xf1, 0xce, 0x36] : List Nat).length = 4 from rfl),
    List.take_left' (n := 4) (leBytes_length _ _)]

/-- Witness for C6 at the all-zero 8-byte payload. -/
theorem c6_rpc_flags_witness :
    proxyReqFlags protoTagAbridged false (List.replicate 8 0) =
      (0x8 ||| 0x1000 ||| 0x20000 ||| 0x40000000 ||| 0x2) := by
  exact (c6_rpc_flags [] [] [] [] (List.replicate 8 0) (by decide) (by decide)
    (by decide)).1

/-- C7 counterexample: at the boundary length L = 2^31 = 0x80000000 the
INTERMEDIATE header computation does NOT set QUICKACK and keeps the full
length (the code compares with a strict `>`), contradicting the claim that
every L ≥ 2^31 sets QUICKACK with payload length L − 2^31. -/
theorem c7_threshold_counterexample :
    mtIntermediateHeader (leBytes 0x80000000 4) = (false, 0x80000000) ∧
    mtIntermediateHeader (leBytes 0x80000000 4) ≠
      (true, 0x80000000 - 0x80000000) ∧
    0x80000000 ≤ (0x80000000 : Nat) := by decide

/-- C7 (amended): for every 4-byte little-endian length value L parsed by
the INTERMEDIATE and SECURE-INTERMEDIATE frame readers, if L is strictly
greater than 2^31 then QUICKACK is reported and the payload length is
L − 2^31; otherwise (L ≤ 2^31) QUICKACK is not set and the payload length is
L.  Both readers consume the length word through `mtIntermediateHeader`. -/
theorem c7_intermediate_header (L : Nat) (hL : L < 2 ^ 32)
    (stream : List Nat) :
    (0x80000000 < L →
      mtIntermediateHeader (leBytes L 4) = (true, L - 0x80000000)) ∧
    (L ≤ 0x80000000 →
      mtIntermediateHeader (leBytes L 4) = (false, L)) ∧
    mtIntermediateRead (leBytes L 4 ++ stream) =
      (if stream.length < (mtIntermediateHeader (leBytes L 4)).2 then none
       else some (stream.take (mtIntermediateHeader (leBytes L 4)).2,
         (mtIntermediateHeader (leBytes L 4)).1,
         stream.drop (mtIntermediateHeader (leBytes L 4)).2)) ∧
    mtSecureIntermediateRead (leBytes L 4 ++ stream) =
      (if stream.length < (mtIntermediateHeader (leBytes L 4)).2 then none
       else some
         ((fun len data =>
            if len % 4 ≠ 0 then data.take (len - len % 4) else data)
            (mtIntermediateHeader (leBytes L 4)).2
            (stream.take (mtIntermediateHeader (leBytes L 4)).2),
          (mtIntermediateHeader (leBytes L 4)).1,
          stream.drop (mtIntermediateHeader (leBytes L 4)).2)) := by
  have hval : leVal (leBytes L 4) = L := leVal_leBytes (by norm_num; omega)
  have hlen4 : (leBytes L 4).length = 4 := leBytes_length _ _
  have htake : (leBytes L 4 ++ stream).take 4 = leBytes L 4 :=
    List.take_left' hlen4
  have hdrop : (leBytes L 4 ++ stream).drop 4 = stream :=
    List.drop_left' hlen4
  have hlenge : ¬ (leBytes L 4 ++ stream).length < 4 := by
    simp [List.length_append, hlen4]
  refine ⟨fun h => ?_, fun h => ?_, ?_, ?_⟩
  · unfold mtIntermediateHeader
    rw [hval, if_pos h]
  · unfold mtIntermediateHeader
    rw [hval, if_neg (by omega)]
  · unfold mtIntermediateRead
    rw [if_neg hlenge, htake, hdrop]
  · unfold mtSecureIntermediateRead
    rw [if_neg hlenge, htake, hdrop]

/-- Witness for C7 at L = 2^31 + 8 with an 8-byte stream. -/
theorem c7_intermediate_header_witness :
    mtIntermediateHeader (leBytes (0x80000000 + 8) 4) = (true, 8) ∧
    mtIntermediateRead (leBytes (0x80000000 + 8) 4 ++
        [1, 2, 3, 4, 5, 6, 7, 8]) =
      some ([1, 2, 3, 4, 5, 6, 7, 8], true, []) := by
  have h := c7_intermediate_header (0x80000000 + 8) (by norm_num)
    [1, 2, 3, 4, 5, 6, 7, 8]
  refine ⟨?_, ?_⟩
  · have := h.1 (by norm_num)
    simpa using this
  · rw [h.2.2.1]
    rw [h.1 (by norm_num)]
    decide

/-- C5: the middle-proxy key derivation `get_middleproxy_aes_key_and_iv` is
the pure function described by the specification: with
s = serverNonce || clientNonce || cryptoTs || srvIp || cltPort || purpose ||
cltIp || srvPort || middleProxySecret || serverNonce, then (when both IPv6
endpoints are present) || cltIPv6 || srvIPv6, then || clientNonce, the key
is MD5(s[1:])[0:12] || SHA1(s) and the iv is MD5(s[2:]); being a pure
function of its arguments, identical inputs (for either the CLIENT or the
SERVER purpose string) yield byte-identical (key, IV) pairs. -/
theorem c5_middleproxy_kdf (md5 sha1 : List Nat → List Nat)
    (nonceSrv nonceClt cltTs srvIp cltPort purpose cltIp srvPort
     middleproxySecret cltIpv6 srvIpv6 : List Nat)
    (hclt : cltIp ≠ []) (hsrv : srvIp ≠ []) :
    getMiddleproxyAesKeyAndIv md5 sha1 nonceSrv nonceClt cltTs srvIp cltPort
      purpose cltIp srvPort middleproxySecret cltIpv6 srvIpv6 =
    specMiddleproxyKeyIv md5 sha1 nonceSrv nonceClt cltTs srvIp cltPort
      purpose cltIp srvPort middleproxySecret cltIpv6 srvIpv6 := by
  have hcond : ¬ (cltIp = [] ∨ srvIp = []) := by simp [hclt, hsrv]
  unfold getMiddleproxyAesKeyAndIv specMiddleproxyKeyIv
  simp only [if_neg hcond]

/-- Witness for C5 at concrete single-byte arguments. -/
theorem c5_middleproxy_kdf_witness :
    getMiddleproxyAesKeyAndIv (fun l => [l.length]) (fun l => [l.length + 1])
      [1] [2] [3] [4] [5] [6] [7] [8] [9] [] [] =
    specMiddleproxyKeyIv (fun l => [l.length]) (fun l => [l.length + 1])
      [1] [2] [3] [4] [5] [6] [7] [8] [9] [] [] :=
  c5_middleproxy_kdf (fun l => [l.length]) (fun l => [l.length + 1])
    [1] [2] [3] [4] [5] [6] [7] [8] [9] [] [] (by decide) (by decide)

/-- C9: the FULL framing reader silently skips any number of leading
4-byte words equal to the padding filler 04 00 00 00 before parsing a
frame's length field, so frames remain parseable when the writer's
right-padding (replicated filler words, as emitted by `mtFrameWrite`)
precedes the next frame in the stream. -/
theorem c9_filler_skip (k : Nat) (stream : List Nat) (n : Int) :
    mtFrameRead ((List.replicate k mtPaddingFiller).flatten ++ stream) n =
      mtFrameRead stream n := by
  have hone : ∀ s : List Nat, mtReadLen (mtPaddingFiller ++ s) = mtReadLen s := by
    intro s
    show mtReadLen (4 :: 0 :: 0 :: 0 :: s) = mtReadLen s
    conv_lhs => rw [mtReadLen]
    rw [if_pos (by decide)]
  induction k with
  | zero => simp
  | succ k ih =>
    rw [List.replicate_succ, List.flatten_cons, List.append_assoc]
    have : mtFrameRead (mtPaddingFiller ++
        ((List.replicate k mtPaddingFiller).flatten ++ stream)) n =
        mtFrameRead ((List.replicate k mtPaddingFiller).flatten ++ stream) n := by
      unfold mtFrameRead
      rw [hone]
    rw [this, ih]

/-- C3 (the claim is right, the code is not): `handle_client` never skips
the bidirectional splice, whatever the user's `max_tcp_conns`,
`expiration_date`, `data_quota` and current statistics are — the limit
checks test string membership in a `filter` object of user records, which
is always false — so in particular a user with `max_tcp_conns = 1` and 2
current connections is still spliced. -/
theorem c3_limits_not_enforced :
    (∀ (users : List User) (username : String) (a b c : Nat),
      handleClientSpliceRuns users username a b c = true) ∧
    handleClientSpliceRuns
      [{ name := "alice", secret := List.replicate 16 0,
         maxTcpConns := some 1 }] "alice" 2 0 0 = true := by
  constructor
  · intro users username a b c
    simp [handleClientSpliceRuns, pyStrInUsers, pyUserEqString]
  · simp [handleClientSpliceRuns, pyStrInUsers, pyUserEqString]

/-- C4 counterexample: for the payload [1..8] at sequence 0 the framed
buffer carries 12 bytes of filler padding; mutating its last byte (position
31) does NOT make the reader fail — it still yields exactly the payload —
refuting the claim that mutating any byte of the framed buffer causes a
frame-corruption failure. -/
theorem c4_padding_counterexample :
    (mtFrameWrite [1, 2, 3, 4, 5, 6, 7, 8] 0).set 31 7 ≠
      mtFrameWrite [1, 2, 3, 4, 5, 6, 7, 8] 0 ∧
    mtFrameRead ((mtFrameWrite [1, 2, 3, 4, 5, 6, 7, 8] 0).set 31 7) 0 =
      some ([1, 2, 3, 4, 5, 6, 7, 8], 1, [4, 0, 0, 0, 4, 0, 0, 0, 4, 0, 0, 7]) := by
  decide

/-- C4 (amended): FULL-framing round trip — for every payload of 4-byte
aligned length at most 2^24 − 12 (bytes < 256) and every in-range sequence
number n, writing at sequence n and reading back expecting sequence n
yields exactly the payload, advances the expected sequence to n + 1, and
leaves only the filler padding unread; and mutating any single byte of the
sequence-number, payload or CRC fields (positions 4 ≤ i < len + 12) to a
different byte value makes the reader fail.  Mutations of the trailing
padding are not detected (see the counterexample), and mutations of the
4-byte length field can make the reader resynchronise instead of failing,
so those positions are excluded. -/
theorem c4_full_roundtrip_corruption (msg : List Nat) (n : Int) (i v : Nat)
    (hbytes : ∀ x ∈ msg, x < 256)
    (halign : msg.length % 4 = 0) (hsize : msg.length ≤ 2 ^ 24 - 12)
    (hnlo : -(2 ^ 31) ≤ n) (hnhi : n < 2 ^ 31) :
    mtFrameRead (mtFrameWrite msg n) n =
      some (msg, n + 1,
        (List.replicate (((16 - (msg.length + 12) % 16) % 16) / 4)
          mtPaddingFiller).flatten) ∧
    (4 ≤ i → i < msg.length + 12 → v < 256 →
      (mtFrameWrite msg n).set i v ≠ mtFrameWrite msg n →
      mtFrameRead ((mtFrameWrite msg n).set i v) n = none) := by
  have hw := mtFrameWrite_eq msg n
  set lenB := leBytes (msg.length + 12) 4 with hlenBdef
  set seqB := leSignedBytes 4 n with hseqBdef
  set crcB := leBytes (crc32 (lenB ++ seqB ++ msg)) 4 with hcrcBdef
  set pad := (List.replicate (((16 - (msg.length + 12) % 16) % 16) / 4)
    mtPaddingFiller).flatten with hpaddef
  have hlenB4 : lenB.length = 4 := leBytes_length _ _
  have hseqB4 : seqB.length = 4 := leSignedBytes_length _ _
  have hcrcB4 : crcB.length = 4 := leBytes_length _ _
  have hseqval : leSignedVal 4 seqB = n := by
    rw [hseqBdef]
    exact leSignedVal_leSignedBytes (by norm_num) hnlo hnhi
  have hcrcval : leVal crcB = crc32 (lenB ++ seqB ++ msg) := by
    rw [hcrcBdef]
    exact leVal_leBytes (lt_of_lt_of_le (crc32_lt _) (by norm_num))
  have hseqBw : ∀ x ∈ seqB, x < 256 := by
    rw [hseqBdef]
    intro x hx
    exact leBytes_mem_lt hx
  have hcrcBw : ∀ x ∈ crcB, x < 256 := by
    rw [hcrcBdef]
    intro x hx
    exact leBytes_mem_lt hx
  constructor
  · rw [hw]
    exact mtFrameRead_framed_ok msg seqB crcB pad n halign hsize hseqB4
      hcrcB4 hseqval hcrcval
  · intro h4 hlt hv hne
    rw [hw] at hne ⊢
    have hZlen : (lenB ++ seqB).length = 8 := by
      simp [hlenB4, hseqB4]
    have hYlen : (lenB ++ seqB ++ msg).length = msg.length + 8 := by
      simp [hlenB4, hseqB4]
      omega
    have hXlen : (lenB ++ seqB ++ msg ++ crcB).length = msg.length + 12 := by
      simp [hlenB4, hseqB4, hcrcB4]
      omega
    rcases Nat.lt_or_ge i 8 with hreg | hreg
    · -- sequence-number field
      have hdec : (lenB ++ seqB ++ msg ++ crcB ++ pad).set i v =
          lenB ++ seqB.set (i - 4) v ++ msg ++ crcB ++ pad := by
        rw [set_append_lt (show i < (lenB ++ seqB ++ msg ++ crcB).length by omega),
          set_append_lt (show i < (lenB ++ seqB ++ msg).length by omega),
          set_append_lt (show i < (lenB ++ seqB).length by omega),
          set_append_ge (show lenB.length ≤ i by omega), hlenB4]
      rw [hdec] at hne ⊢
      have hse4 : (seqB.set (i - 4) v).length = 4 := by
        rw [List.length_set, hseqB4]
      have hne' : leSignedVal 4 (seqB.set (i - 4) v) ≠ n := by
        intro heq
        have hEq : seqB.set (i - 4) v = seqB :=
          leSignedVal_inj (w := 4) hse4 hseqB4
            (set_mem_lt hv hseqBw) hseqBw (heq.trans hseqval.symm)
        rw [hEq] at hne
        exact hne rfl
      exact mtFrameRead_framed_badseq msg (seqB.set (i - 4) v) crcB pad n
        halign hsize hse4 hcrcB4 hne'
    · rcases Nat.lt_or_ge i (msg.length + 8) with hreg2 | hreg2
      · -- payload field
        have hdec : (lenB ++ seqB ++ msg ++ crcB ++ pad).set i v =
            lenB ++ seqB ++ msg.set (i - 8) v ++ crcB ++ pad := by
          rw [set_append_lt (show i < (lenB ++ seqB ++ msg ++ crcB).length by omega),
            set_append_lt (show i < (lenB ++ seqB ++ msg).length by omega),
            set_append_ge (show (lenB ++ seqB).length ≤ i by omega), hZlen]
        rw [hdec] at hne ⊢
        have hj : i - 8 < msg.length := by omega
        have hmlen : (msg.set (i - 8) v).length = msg.length := List.length_set ..
        have hvne : v ≠ msg[i - 8] := by
          intro heq
          rw [heq, set_self_eq hj] at hne
          exact hne rfl
        have hsplit : msg = msg.take (i - 8) ++ msg[i - 8] :: msg.drop (i - 8 + 1) := by
          conv_lhs => rw [← List.take_append_drop (i - 8) msg]
          rw [List.drop_eq_getElem_cons hj]
        have hsplit' : msg.set (i - 8) v =
            msg.take (i - 8) ++ v :: msg.drop (i - 8 + 1) := by
          rw [List.set_eq_take_append_cons_drop, if_pos hj]
        have hcrcne : crc32 (leBytes ((msg.set (i - 8) v).length + 12) 4 ++ seqB ++
            msg.set (i - 8) v) ≠ leVal crcB := by
          rw [hmlen, hcrcval, ← hlenBdef]
          have hgen := crc32_ne_single_byte
            (lenB ++ seqB ++ msg.take (i - 8)) (msg.drop (i - 8 + 1))
            (hbytes msg[i - 8] (List.getElem_mem hj)) hv
            (fun h => hvne h.symm)
          intro hcon
          apply hgen
          calc crc32 (lenB ++ seqB ++ msg.take (i - 8) ++
                msg[i - 8] :: msg.drop (i - 8 + 1))
              = crc32 (lenB ++ seqB ++ msg) := by
                conv_rhs => rw [hsplit]
                simp [List.append_assoc]
            _ = crc32 (lenB ++ seqB ++ msg.set (i - 8) v) := by
                rw [← hcon]
            _ = crc32 (lenB ++ seqB ++ msg.take (i - 8) ++
                v :: msg.drop (i - 8 + 1)) := by
                conv_lhs => rw [hsplit']
                simp [List.append_assoc]
        have hb := mtFrameRead_framed_badcrc (msg.set (i - 8) v) seqB crcB pad n
          (by rw [hmlen]; exact halign) (by rw [hmlen]; exact hsize)
          hseqB4 hcrcB4 hcrcne
        rw [hmlen] at hb
        exact hb
      · -- CRC field
        have hdec : (lenB ++ seqB ++ msg ++ crcB ++ pad).set i v =
            lenB ++ seqB ++ msg ++ crcB.set (i - (msg.length + 8)) v ++ pad := by
          rw [set_append_lt (show i < (lenB ++ seqB ++ msg ++ crcB).length by omega),
            set_append_ge (show (lenB ++ seqB ++ msg).length ≤ i by omega), hYlen]
        rw [hdec] at hne ⊢
        have hcb4 : (crcB.set (i - (msg.length + 8)) v).length = 4 := by
          rw [List.length_set, hcrcB4]
        have hcrcne : crc32 (leBytes (msg.length + 12) 4 ++ seqB ++ msg) ≠
            leVal (crcB.set (i - (msg.length + 8)) v) := by
          rw [← hlenBdef]
          intro heq
          have hEq : crcB.set (i - (msg.length + 8)) v = crcB := by
            apply leVal_inj (by rw [hcb4, hcrcB4]) (set_mem_lt hv hcrcBw) hcrcBw
            rw [← heq, hcrcval]
          rw [hEq] at hne
          exact hne rfl
        exact mtFrameRead_framed_badcrc msg seqB
          (crcB.set (i - (msg.length + 8)) v) pad n halign hsize
          hseqB4 hcb4 hcrcne

/-- Witness for C4 at payload [1,2,3,4], sequence 0, mutating the first
sequence-number byte to 1. -/
theorem c4_full_roundtrip_corruption_witness :
    mtFrameRead (mtFrameWrite [1, 2, 3, 4] 0) 0 =
      some ([1, 2, 3, 4], 1,
        (List.replicate (((16 - (([1, 2, 3, 4] : List Nat).length + 12) % 16)
          % 16) / 4) mtPaddingFiller).flatten) ∧
    mtFrameRead ((mtFrameWrite [1, 2, 3, 4] 0).set 4 1) 0 = none := by
  have h := c4_full_roundtrip_corruption [1, 2, 3, 4] 0 4 1 (by decide)
    (by decide) (by norm_num) (by norm_num) (by norm_num)
  exact ⟨h.1, h.2 (by norm_num) (by norm_num) (by norm_num) (by decide)⟩

theorem getAssoc_map_set (k : String) (v : Int) (l : List (String × Int))
    (h : l.any (fun p => p.1 = k) = true) :
    getAssoc k (l.map (fun p => if p.1 = k then (k, v) else p)) = some v := by
  induction l with
  | nil => simp at h
  | cons p rest ih =>
    by_cases hp : p.1 = k
    · simp only [List.map, if_pos hp]
      unfold getAssoc
      rw [if_pos rfl]
    · simp only [List.map, if_neg hp]
      unfold getAssoc
      rw [if_neg hp]
      apply ih
      simp only [List.any_cons, decide_eq_true_eq, Bool.or_eq_true] at h
      rcases h with h | h
      · exact absurd h hp
      · exact h

theorem getAssoc_append_missing (k : String) (l tail : List (String × Int))
    (h : l.any (fun p => p.1 = k) = false) :
    getAssoc k (l ++ tail) = getAssoc k tail := by
  induction l with
  | nil => rfl
  | cons p rest ih =>
    simp only [List.any_cons, Bool.or_eq_false_iff, decide_eq_false_iff_not] at h
    rw [List.cons_append]
    conv_lhs => rw [getAssoc]
    rw [if_neg h.1]
    exact ih (by simp [h.2])

theorem getAssoc_setAssoc (k : String) (v : Int) (l : List (String × Int)) :
    getAssoc k (setAssoc k v l) = some v := by
  unfold setAssoc
  by_cases h : l.any (fun p => p.1 = k)
  · rw [if_pos h]
    exact getAssoc_map_set k v l h
  · rw [if_neg h]
    rw [getAssoc_append_missing k l [(k, v)] (Bool.eq_false_iff.mpr h)]
    unfold getAssoc
    rw [if_pos rfl]

theorem fakeTlsLoop_cons_skew (env : HsEnv) (digest msg : List Nat)
    (peerIp : String) (u : User) (rest : List User)
    (skews : List (String × Int)) (m : Int)
    (h : fakeTlsUserStep env digest msg u.secret = .skew m) :
    fakeTlsLoop env digest msg peerIp (u :: rest) skews =
      fakeTlsLoop env digest msg peerIp rest (setAssoc peerIp m skews) := by
  conv_lhs => rw [fakeTlsLoop]
  rw [h]

/-- C8: during FakeTLS verification, once a user secret's HMAC digest
matches (the first 28 bytes of the XOR of the client digest and the
computed HMAC are zero), the little-endian timestamp T in the last 4 XOR
bytes is accepted if and only if −20·60 < now − T < 10·60, or
ignore_time_skew is set, or is_time_skewed is set, or T < 86,400,000;
when none of these hold the client is not accepted for that secret (the
loop moves to the next user) and the skew (now − T) // 60 is recorded for
the peer IP in last_clients_with_time_skew. -/
theorem c8_time_window (env : HsEnv) (digest msg : List Nat) (peerIp : String)
    (u : User) (rest : List User) (skews : List (String × Int)) (T : Nat)
    (hgood : (List.zipWith (fun a b => a ^^^ b) digest
        (env.hmacSha256 u.secret msg)).take 28 = List.replicate 28 0)
    (hT : T = leVal ((List.zipWith (fun a b => a ^^^ b) digest
        (env.hmacSha256 u.secret msg)).drop 28)) :
    (fakeTlsUserStep env digest msg u.secret = .accept T ↔
      (((-(20 * 60) : Int) < env.now - T ∧ (env.now - T : Int) < 10 * 60) ∨
        env.ignoreTimeSkew = true ∨ env.isTimeSkewed = true ∨
        T < 60 * 60 * 24 * 1000)) ∧
    (¬ ((((-(20 * 60) : Int) < env.now - T ∧ (env.now - T : Int) < 10 * 60)) ∨
        env.ignoreTimeSkew = true ∨ env.isTimeSkewed = true ∨
        T < 60 * 60 * 24 * 1000) →
      fakeTlsUserStep env digest msg u.secret =
        .skew ((env.now - T).fdiv 60) ∧
      fakeTlsLoop env digest msg peerIp (u :: rest) skews =
        fakeTlsLoop env digest msg peerIp rest
          (setAssoc peerIp ((env.now - T).fdiv 60) skews) ∧
      getAssoc peerIp (setAssoc peerIp ((env.now - T).fdiv 60) skews) =
        some ((env.now - T).fdiv 60)) := by
  have hredux : fakeTlsUserStep env digest msg u.secret =
      if (!decide ((-(20 * 60) : Int) < env.now - T ∧
            (env.now - T : Int) < 10 * 60) &&
          !(env.ignoreTimeSkew || env.isTimeSkewed ||
            decide (T < 60 * 60 * 24 * 1000))) = true
      then .skew ((env.now - T).fdiv 60)
      else .accept T := by
    simp only [fakeTlsUserStep]
    rw [if_neg (fun h => h hgood)]
    rw [← hT]
  by_cases hW : (((-(20 * 60) : Int) < env.now - T ∧
      (env.now - T : Int) < 10 * 60) ∨ env.ignoreTimeSkew = true ∨
      env.isTimeSkewed = true ∨ T < 60 * 60 * 24 * 1000)
  · have hcf : (!decide ((-(20 * 60) : Int) < env.now - T ∧
        (env.now - T : Int) < 10 * 60) &&
        !(env.ignoreTimeSkew || env.isTimeSkewed ||
          decide (T < 60 * 60 * 24 * 1000))) = false := by
      rcases hW with h | h | h | h
      · simp only [decide_eq_true h, Bool.not_true, Bool.false_and]
      · simp only [h, Bool.true_or, Bool.not_true, Bool.and_false]
      · simp only [h, Bool.true_or, Bool.or_true, Bool.not_true,
          Bool.and_false]
      · simp only [decide_eq_true h, Bool.or_true, Bool.not_true,
          Bool.and_false]
    refine ⟨?_, fun hnW => absurd hW hnW⟩
    rw [hredux, hcf, if_neg Bool.false_ne_true]
    exact iff_of_true rfl hW
  · have hct : (!decide ((-(20 * 60) : Int) < env.now - T ∧
        (env.now - T : Int) < 10 * 60) &&
        !(env.ignoreTimeSkew || env.isTimeSkewed ||
          decide (T < 60 * 60 * 24 * 1000))) = true := by
      obtain ⟨hA, hBCD⟩ := not_or.mp hW
      obtain ⟨hB, hCD⟩ := not_or.mp hBCD
      obtain ⟨hC, hD⟩ := not_or.mp hCD
      simp only [Bool.not_eq_true] at hB hC
      simp only [decide_eq_false hA, decide_eq_false hD, hB, hC,
        Bool.false_or, Bool.not_false, Bool.and_self]
    have hstep : fakeTlsUserStep env digest msg u.secret =
        .skew ((env.now - T).fdiv 60) := by
      rw [hredux, hct, if_pos rfl]
    refine ⟨?_, fun _ => ⟨hstep, ?_, getAssoc_setAssoc ..⟩⟩
    · rw [hstep]
      exact iff_of_false (fun hcon => UserStepRes.noConfusion hcon) hW
    · exact fakeTlsLoop_cons_skew env digest msg peerIp u rest skews _ hstep

/-- Witness for C8: an all-zero digest with a constant-zero HMAC gives
timestamp 1,000,000,000 when the digest's last four bytes carry it; at
now = 0 with both skew flags clear, the step records a skew of
−16,666,667 minutes for the peer and moves on. -/
theorem c8_time_window_witness :
    (fakeTlsUserStep
        { sha256 := fun _ => [], hmacSha256 := fun _ _ => List.replicate 32 0,
          aesCtrDecrypt := fun _ _ d => d, now := 0, ignoreTimeSkew := false,
          isTimeSkewed := false, replayCheckLen := 65536 }
        (List.replicate 28 0 ++ leBytes 1000000000 4) [] [] =
      .skew ((-1000000000 : Int).fdiv 60)) ∧
    getAssoc "peer" (setAssoc "peer" ((-1000000000 : Int).fdiv 60) []) =
      some ((-1000000000 : Int).fdiv 60) := by
  have h := c8_time_window
    { sha256 := fun _ => [], hmacSha256 := fun _ _ => List.replicate 32 0,
      aesCtrDecrypt := fun _ _ d => d, now := 0, ignoreTimeSkew := false,
      isTimeSkewed := false, replayCheckLen := 65536 }
    (List.replicate 28 0 ++ leBytes 1000000000 4) []
    "peer" { name := "tg", secret := [] } [] [] 1000000000
    (by decide) (by decide)
  have h2 := h.2 (by norm_num)
  exact ⟨by simpa using h2.1, by simpa using h2.2.2⟩

/-- C2 counterexample: a 64-byte all-zero opening whose block would be
accepted by the inner obfuscated-handshake engine (under crypto functions
for which it decrypts to a valid INTERMEDIATE tag for the configured user)
is nevertheless tunnelled to the cover host when sent without FakeTLS:
there is no plain-MTProto path. -/
theorem c2_plain_counterexample :
    hsAccepted (processInnerHandshake
      { sha256 := fun _ => List.replicate 32 0,
        hmacSha256 := fun _ _ => List.replicate 32 0,
        aesCtrDecrypt := fun _ _ _ =>
          List.replicate 56 0 ++ protoTagIntermediate ++ [2, 0, 0, 0],
        now := 0, ignoreTimeSkew := false, isTimeSkewed := false,
        replayCheckLen := 65536 }
      [{ name := "tg", secret := List.replicate 16 1 }] "ip"
      (List.replicate 64 0) []).1 = true ∧
    handleHandshake
      { sha256 := fun _ => List.replicate 32 0,
        hmacSha256 := fun _ _ => List.replicate 32 0,
        aesCtrDecrypt := fun _ _ _ =>
          List.replicate 56 0 ++ protoTagIntermediate ++ [2, 0, 0, 0],
        now := 0, ignoreTimeSkew := false, isTimeSkewed := false,
        replayCheckLen := 65536 }
      [{ name := "tg", secret := List.replicate 16 1 }] "ip"
      (List.replicate 64 0) [] [] = (.coverTunnel, [], []) := by
  constructor
  · decide
  · decide

/-- C2 (amended): when the first bytes received from a client do not equal
the 11-byte TLS 1.3 ClientHello prefix 16 03 01 02 00 01 00 01 fc 03 03,
`handle_handshake` does NOT read a plain obfuscated-MTProto handshake —
it immediately treats the client as bad (cover tunnel), leaving the replay
cache and skew map untouched, and the connection never reaches the DC
dialing code; only FakeTLS-wrapped handshakes can be accepted. -/
theorem c2_no_plain_path (env : HsEnv) (users : List User) (peerIp : String)
    (stream : List Nat) (used : List (List Nat))
    (skews : List (String × Int))
    (h : prefixScan tlsStartBytes stream = some false) :
    handleHandshake env users peerIp stream used skews =
      (.coverTunnel, used, skews) ∧
    handleClientContactsDc env users peerIp stream used skews = false := by
  have h1 : handleHandshake env users peerIp stream used skews =
      (.coverTunnel, used, skews) := by
    unfold handleHandshake
    rw [h]
  refine ⟨h1, ?_⟩
  unfold handleClientContactsDc
  rw [h1]

/-- Witness for C2 at a one-byte 0x00 opening. -/
theorem c2_no_plain_path_witness :
    handleHandshake
      { sha256 := fun _ => [], hmacSha256 := fun _ _ => [],
        aesCtrDecrypt := fun _ _ d => d, now := 0, ignoreTimeSkew := false,
        isTimeSkewed := false, replayCheckLen := 65536 }
      [] "ip" [0] [] [] = (.coverTunnel, [], []) :=
  (c2_no_plain_path
    { sha256 := fun _ => [], hmacSha256 := fun _ _ => [],
      aesCtrDecrypt := fun _ _ d => d, now := 0, ignoreTimeSkew := false,
      isTimeSkewed := false, replayCheckLen := 65536 }
    [] "ip" [0] [] [] (by decide)).1

theorem innerUserLoop_inserts (env : HsEnv)
    (decPrekey decIv encPrekey encIv decPrekeyAndIv inner : List Nat)
    (peerIp : String) (used used' : List (List Nat)) (us : List User)
    (ctx : ClientCtx)
    (h : innerUserLoop env decPrekey decIv encPrekey encIv decPrekeyAndIv
        inner peerIp used us = (.accepted ctx, used')) :
    used' = insertReplay env.replayCheckLen decPrekeyAndIv used := by
  induction us with
  | nil => simp [innerUserLoop] at h
  | cons u rest ih =>
    simp only [innerUserLoop] at h
    split at h
    · exact ih h
    · injection h with h1 h2
      exact h2.symm

theorem handleFakeTls_accept_inserts (env : HsEnv) (handshake : List Nat)
    (users : List User) (peerIp : String) (used used' : List (List Nat))
    (skews skews' : List (String × Int)) (u : User)
    (h : handleFakeTlsHandshake env handshake users peerIp used skews =
        (.accepted u, used', skews')) :
    used' = insertReplay env.replayCheckLen
      (((handshake.drop 11).take 32).take 16) used := by
  simp only [handleFakeTlsHandshake] at h
  split at h
  · simp at h
  · split at h
    · simp at h
    · simp only [Prod.mk.injEq] at h
      exact h.2.1.symm

theorem evictWhile_eq_drop {cap : Nat} (_hcap : 0 < cap)
    (l : List (List Nat)) :
    evictWhile cap l = l.drop (l.length + 1 - cap) := by
  induction l with
  | nil => simp [evictWhile]
  | cons x rest ih =>
    unfold evictWhile
    split
    case isTrue h =>
      rw [ih]
      have he : (x :: rest).length + 1 - cap = (rest.length + 1 - cap) + 1 := by
        simp only [List.length_cons] at h ⊢
        omega
      rw [he, List.drop_succ_cons]
    case isFalse h =>
      have he : (x :: rest).length + 1 - cap = 0 := by
        simp only [List.length_cons] at h ⊢
        omega
      rw [he, List.drop_zero]

/-- C1: replay-guard invariant.  (a) A FakeTLS handshake whose digest
fingerprint (first 16 bytes) is already in the replay cache is rejected as
a probe even if a user secret would otherwise match, with the cache and
skew map untouched; (b) an inner 64-byte obfuscated handshake whose 48-byte
decryption prekey+IV fingerprint is already in the cache is cover-tunnelled
with the cache untouched; (c) a connection whose handshake is not accepted
never reaches the DC dialing code, and a TLS-shaped stream with a replayed
digest in particular is cover-tunnelled with no DC contact; (d,e) for every
accepted connection the fingerprint is inserted into the replay cache
before the accepted context (and hence any DC byte) is produced, except
that nothing is inserted when replay_check_len is 0; (f) insertion evicts
the oldest entries in insertion order while the cache holds at least
replay_check_len entries. -/
theorem c1_replay_guard (env : HsEnv) (users : List User) (peerIp : String)
    (handshake inner stream fp : List Nat) (used used' : List (List Nat))
    (skews skews' : List (String × Int)) (ctx : ClientCtx) (u : User) :
    (((handshake.drop 11).take 32).take 16 ∈ used →
      handleFakeTlsHandshake env handshake users peerIp used skews =
        (.probe, used, skews)) ∧
    ((inner.drop 8).take 48 ∈ used →
      processInnerHandshake env users peerIp inner used =
        (.coverTunnel, used)) ∧
    ((handleHandshake env users peerIp stream used skews).1 = .coverTunnel ∨
        (handleHandshake env users peerIp stream used skews).1 = .err →
      handleClientContactsDc env users peerIp stream used skews = false) ∧
    (prefixScan tlsStartBytes stream = some true → 517 ≤ stream.length →
      (((stream.take 517).drop 11).take 32).take 16 ∈ used →
      handleHandshake env users peerIp stream used skews =
        (.coverTunnel, used, skews) ∧
      handleClientContactsDc env users peerIp stream used skews = false) ∧
    (processInnerHandshake env users peerIp inner used =
        (.accepted ctx, used') →
      used' = insertReplay env.replayCheckLen ((inner.drop 8).take 48) used ∧
      (0 < env.replayCheckLen → (inner.drop 8).take 48 ∈ used') ∧
      (env.replayCheckLen = 0 → used' = used)) ∧
    (handleFakeTlsHandshake env handshake users peerIp used skews =
        (.accepted u, used', skews') →
      used' = insertReplay env.replayCheckLen
        (((handshake.drop 11).take 32).take 16) used ∧
      (0 < env.replayCheckLen →
        ((handshake.drop 11).take 32).take 16 ∈ used')) ∧
    (0 < env.replayCheckLen →
      insertReplay env.replayCheckLen fp used =
        used.drop (used.length + 1 - env.replayCheckLen) ++ [fp]) := by
  refine ⟨?_, ?_, ?_, ?_, ?_, ?_, ?_⟩
  · intro h
    simp only [handleFakeTlsHandshake]
    rw [if_pos h]
  · intro h
    simp only [processInnerHandshake]
    rw [if_pos h]
  · intro h
    unfold handleClientContactsDc
    rcases h with h | h <;> rw [h]
  · intro hp hlen hmem
    have hfa : handleFakeTlsHandshake env (stream.take 517) users peerIp
        used skews = (.probe, used, skews) := by
      simp only [handleFakeTlsHandshake]
      rw [if_pos hmem]
    have h1 : handleHandshake env users peerIp stream used skews =
        (.coverTunnel, used, skews) := by
      unfold handleHandshake
      rw [hp]
      dsimp only
      rw [if_neg (by omega), hfa]
    refine ⟨h1, ?_⟩
    unfold handleClientContactsDc
    rw [h1]
  · intro h
    have hins : used' = insertReplay env.replayCheckLen
        ((inner.drop 8).take 48) used := by
      simp only [processInnerHandshake] at h
      split at h
      · simp at h
      · exact innerUserLoop_inserts env _ _ _ _ _ _ _ _ _ _ _ h
    refine ⟨hins, fun hcap => ?_, fun hzero => ?_⟩
    · rw [hins]
      unfold insertReplay
      rw [if_pos hcap]
      simp
    · rw [hins]
      unfold insertReplay
      rw [if_neg (by omega)]
  · intro h
    have hins := handleFakeTls_accept_inserts env handshake users peerIp
      used used' skews skews' u h
    refine ⟨hins, fun hcap => ?_⟩
    rw [hins]
    unfold insertReplay
    rw [if_pos hcap]
    simp
  · intro hcap
    unfold insertReplay
    rw [if_pos hcap, evictWhile_eq_drop hcap]

set_option maxRecDepth 100000 in
/-- Witness for C1: concrete instances of each clause, with the crypto
parameters instantiated by constant functions, one user "tg", capacity
65536, and an all-zero handshake material. -/
theorem c1_replay_guard_witness :
    handleFakeTlsHandshake
      { sha256 := fun _ => List.replicate 32 0,
        hmacSha256 := fun _ _ => List.replicate 32 0,
        aesCtrDecrypt := fun _ _ _ =>
          List.replicate 56 0 ++ protoTagIntermediate ++ [2, 0, 0, 0],
        now := 0, ignoreTimeSkew := false, isTimeSkewed := false,
        replayCheckLen := 65536 }
      (List.replicate 517 0) [{ name := "tg", secret := List.replicate 16 1 }]
      "ip" [List.replicate 16 0] [] =
      (.probe, [List.replicate 16 0], []) ∧
    processInnerHandshake
      { sha256 := fun _ => List.replicate 32 0,
        hmacSha256 := fun _ _ => List.replicate 32 0,
        aesCtrDecrypt := fun _ _ _ =>
          List.replicate 56 0 ++ protoTagIntermediate ++ [2, 0, 0, 0],
        now := 0, ignoreTimeSkew := false, isTimeSkewed := false,
        replayCheckLen := 65536 }
      [{ name := "tg", secret := List.replicate 16 1 }] "ip"
      (List.replicate 64 0) [List.replicate 48 0] =
      (.coverTunnel, [List.replicate 48 0]) ∧
    (handleHandshake
      { sha256 := fun _ => List.replicate 32 0,
        hmacSha256 := fun _ _ => List.replicate 32 0,
        aesCtrDecrypt := fun _ _ _ =>
          List.replicate 56 0 ++ protoTagIntermediate ++ [2, 0, 0, 0],
        now := 0, ignoreTimeSkew := false, isTimeSkewed := false,
        replayCheckLen := 65536 }
      [{ name := "tg", secret := List.replicate 16 1 }] "ip"
      (tlsStartBytes ++ List.replicate 506 0) [List.replicate 16 0] [] =
      (.coverTunnel, [List.replicate 16 0], []) ∧
     handleClientContactsDc
      { sha256 := fun _ => List.replicate 32 0,
        hmacSha256 := fun _ _ => List.replicate 32 0,
        aesCtrDecrypt := fun _ _ _ =>
          List.replicate 56 0 ++ protoTagIntermediate ++ [2, 0, 0, 0],
        now := 0, ignoreTimeSkew := false, isTimeSkewed := false,
        replayCheckLen := 65536 }
      [{ name := "tg", secret := List.replicate 16 1 }] "ip"
      (tlsStartBytes ++ List.replicate 506 0) [List.replicate 16 0] [] =
      false) ∧
    ((List.replicate 64 0 : List Nat).drop 8).take 48 ∈
      [List.replicate 48 0] ∧
    (((List.replicate 517 0 : List Nat).drop 11).take 32).take 16 ∈
      [List.replicate 16 0] ∧
    insertReplay 65536 [1] [[2]] =
      ([[2]] : List (List Nat)).drop
        (([[2]] : List (List Nat)).length + 1 - 65536) ++ [[1]] := by
  refine ⟨?_, ?_, ?_, ?_, ?_, ?_⟩
  · exact (c1_replay_guard
      { sha256 := fun _ => List.replicate 32 0,
        hmacSha256 := fun _ _ => List.replicate 32 0,
        aesCtrDecrypt := fun _ _ _ =>
          List.replicate 56 0 ++ protoTagIntermediate ++ [2, 0, 0, 0],
        now := 0, ignoreTimeSkew := false, isTimeSkewed := false,
        replayCheckLen := 65536 }
      [{ name := "tg", secret := List.replicate 16 1 }] "ip"
      (List.replicate 517 0) [] [] [] [List.replicate 16 0] [] [] []
      ⟨[], "", 0, [], ""⟩ { name := "tg", secret := List.replicate 16 1 }).1
      (by decide)
  · exact (c1_replay_guard
      { sha256 := fun _ => List.replicate 32 0,
        hmacSha256 := fun _ _ => List.replicate 32 0,
        aesCtrDecrypt := fun _ _ _ =>
          List.replicate 56 0 ++ protoTagIntermediate ++ [2, 0, 0, 0],
        now := 0, ignoreTimeSkew := false, isTimeSkewed := false,
        replayCheckLen := 65536 }
      [{ name := "tg", secret := List.replicate 16 1 }] "ip"
      [] (List.replicate 64 0) [] [] [List.replicate 48 0] [] [] []
      ⟨[], "", 0, [], ""⟩ { name := "tg", secret := List.replicate 16 1 }).2.1
      (by decide)
  · exact (c1_replay_guard
      { sha256 := fun _ => List.replicate 32 0,
        hmacSha256 := fun _ _ => List.replicate 32 0,
        aesCtrDecrypt := fun _ _ _ =>
          List.replicate 56 0 ++ protoTagIntermediate ++ [2, 0, 0, 0],
        now := 0, ignoreTimeSkew := false, isTimeSkewed := false,
        replayCheckLen := 65536 }
      [{ name := "tg", secret := List.replicate 16 1 }] "ip"
      [] [] (tlsStartBytes ++ List.replicate 506 0) []
      [List.replicate 16 0] [] [] []
      ⟨[], "", 0, [], ""⟩ { name := "tg", secret := List.replicate 16 1 }).2.2.2.1
      (by decide) (by decide) (by decide)
  · exact ((c1_replay_guard
      { sha256 := fun _ => List.replicate 32 0,
        hmacSha256 := fun _ _ => List.replicate 32 0,
        aesCtrDecrypt := fun _ _ _ =>
          List.replicate 56 0 ++ protoTagIntermediate ++ [2, 0, 0, 0],
        now := 0, ignoreTimeSkew := false, isTimeSkewed := false,
        replayCheckLen := 65536 }
      [{ name := "tg", secret := List.replicate 16 1 }] "ip"
      [] (List.replicate 64 0) [] [] [] [List.replicate 48 0] [] []
      ⟨protoTagIntermediate, "tg", 2,
        List.replicate 32 0 ++ List.replicate 16 0, "ip"⟩
      { name := "tg", secret := List.replicate 16 1 }).2.2.2.2.1
      (by decide)).2.1 (by decide)
  · exact ((c1_replay_guard
      { sha256 := fun _ => List.replicate 32 0,
        hmacSha256 := fun _ _ => List.replicate 32 0,
        aesCtrDecrypt := fun _ _ _ =>
          List.replicate 56 0 ++ protoTagIntermediate ++ [2, 0, 0, 0],
        now := 0, ignoreTimeSkew := false, isTimeSkewed := false,
        replayCheckLen := 65536 }
      [{ name := "tg", secret := List.replicate 16 1 }] "ip"
      (List.replicate 517 0) [] [] [] [] [List.replicate 16 0] [] []
      ⟨[], "", 0, [], ""⟩ { name := "tg", secret := List.replicate 16 1 }).2.2.2.2.2.1
      (by decide)).2 (by decide)
  · exact (c1_replay_guard
      { sha256 := fun _ => List.replicate 32 0,
        hmacSha256 := fun _ _ => List.replicate 32 0,
        aesCtrDecrypt := fun _ _ _ =>
          List.replicate 56 0 ++ protoTagIntermediate ++ [2, 0, 0, 0],
        now := 0, ignoreTimeSkew := false, isTimeSkewed := false,
        replayCheckLen := 65536 }
      [{ name := "tg", secret := List.replicate 16 1 }] "ip"
      [] [] [] [1] [[2]] [] [] []
      ⟨[], "", 0, [], ""⟩ { name := "tg", secret := List.replicate 16 1 }).2.2.2.2.2.2
      (by decide)

end Mtprotopy
